import Mathlib

/-!
Verification of the netcheck network-condition prober and the portmapper
probe of tailscale.com (netcheck.go, portmapper/probe.go).

The development is a shallow embedding of the Go source:

* Go `map[int]time.Duration` is modelled as an association list
  `List (Nat × Nat)` (region id, duration in nanoseconds); Go map writes
  that insert a fresh key append, writes to a present key replace in place.
* Go `opt.Bool` (a string: "", "true", "false") is modelled by `OptBool`
  with `unset` for "" and `set b` for the two decided values.
* Durations and times are in nanoseconds as `Nat` (Go `time.Duration` is an
  integer nanosecond count; all durations involved are non-negative, and Go
  integer division on non-negative values agrees with `Nat` division).
* The concurrent mutation of the per-call `reportState` is linearised: all
  mutations of the report happen under `rs.mu` in the source, so a run of
  `GetReport` is modelled as a sequence of events (STUN responses processed
  by `addNodeLatency`, the hairpin wait, the port-map probe result, HTTPS
  fallback latency writes) folded over the initial state.
-/

namespace Netcheck

/-- Tri-state boolean modelling Go `opt.Bool` ("" / "true" / "false"). -/
inductive OptBool where
  | unset : OptBool
  | set (b : Bool) : OptBool
deriving DecidableEq, Repr

/-- Lookup in an association-list model of `map[int]time.Duration`. -/
def mapGet : List (Nat × Nat) → Nat → Option Nat
  | [], _ => none
  | p :: t, k => if p.1 = k then some p.2 else mapGet t k

/-- Lookup with Go's zero default for a missing key. -/
def mapGetD (m : List (Nat × Nat)) (k : Nat) (d : Nat) : Nat :=
  match mapGet m k with
  | some v => v
  | none => d

/-- Assignment `m[k] = v` on the association-list model: replace the binding
if the key is present, otherwise append it (a Go map never holds duplicate
keys, so replacing the first occurrence is replacement). -/
def mapSet : List (Nat × Nat) → Nat → Nat → List (Nat × Nat)
  | [], k, v => [(k, v)]
  | p :: t, k, v => if p.1 = k then (k, v) :: t else p :: mapSet t k v

/-- netcheck.updateLatency: keep the minimum latency seen for a region. -/
def updateLatency (m : List (Nat × Nat)) (regionID d : Nat) : List (Nat × Nat) :=
  match mapGet m regionID with
  | none => mapSet m regionID d
  | some prev => if d < prev then mapSet m regionID d else m

/-- netcheck timeouts (nanoseconds). -/
def overallProbeTimeout : Nat := 5000000000

/-- stunProbeTimeout = 3 s. -/
def stunProbeTimeout : Nat := 3000000000

/-- hairpinCheckTimeout = 100 ms. -/
def hairpinCheckTimeout : Nat := 100000000

/-- defaultActiveRetransmitTime = 200 ms. -/
def defaultActiveRetransmitTime : Nat := 200000000

/-- defaultInitialRetransmitTime = 100 ms. -/
def defaultInitialRetransmitTime : Nat := 100000000

/-- netcheck.Report (result of one GetReport call). -/
structure Report where
  UDP : Bool := false
  IPv6 : Bool := false
  IPv4 : Bool := false
  MappingVariesByDestIP : OptBool := .unset
  HairPinning : OptBool := .unset
  UPnP : OptBool := .unset
  PMP : OptBool := .unset
  PCP : OptBool := .unset
  PreferredDERP : Nat := 0
  RegionLatency : List (Nat × Nat) := []
  RegionV4Latency : List (Nat × Nat) := []
  RegionV6Latency : List (Nat × Nat) := []
  GlobalV4 : String := ""
  GlobalV6 : String := ""
deriving DecidableEq, Repr

/-- netcheck.newReport: all maps empty, all fields zero. -/
def newReport : Report := {}

/-- tailcfg.DERPNode (fields used by netcheck). -/
structure DERPNode where
  Name : String
  RegionID : Nat
  IPv4 : String := ""
  IPv6 : String := ""
  HostName : String := ""
  STUNPort : Nat := 0
  STUNOnly : Bool := false
  STUNTestIP : String := ""
deriving DecidableEq, Repr

instance : Inhabited DERPNode := ⟨{ Name := "", RegionID := 0 }⟩

/-- tailcfg.DERPRegion. -/
structure DERPRegion where
  RegionID : Nat
  RegionCode : String := ""
  Avoid : Bool := false
  Nodes : List DERPNode := []
deriving DecidableEq, Repr

/-- tailcfg.DERPMap: Go `map[int]*DERPRegion`, modelled as an association
list keyed by region id. -/
structure DERPMap where
  Regions : List (Nat × DERPRegion) := []
deriving DecidableEq, Repr

/-- interfaces.State (the two fields netcheck reads). -/
structure IfState where
  HaveV4 : Bool
  HaveV6 : Bool
deriving DecidableEq, Repr

/-- netcheck.regionHasDERPNode: some node of the region is not STUN-only. -/
def regionHasDERPNode (r : DERPRegion) : Bool :=
  r.Nodes.any (fun n => !n.STUNOnly)

end Netcheck

namespace Portmapper

/-- portmapper.ProbeResult. -/
structure ProbeResult where
  PCP : Bool := false
  PMP : Bool := false
  UPnP : Bool := false
deriving DecidableEq, Repr

/-- Modelled from the spec: the PCP/PMP op and result codes (the codec file
pcp.go/pmp.go is not under src/; §6 of the spec gives "Response:
op=0x80|announce" for PCP and "op=0x80" for the PMP reply, and PCP
NotAuthorized is RFC 6887 result code 2). -/
def pcpOpReply : Nat := 128

/-- Modelled from the spec: the PCP announce opcode (0). -/
def pcpOpAnnounce : Nat := 0

/-- Modelled from the spec: PCP result code OK (0). -/
def pcpCodeOK : Nat := 0

/-- Modelled from the spec: PCP result code NotAuthorized (2). -/
def pcpCodeNotAuthorized : Nat := 2

/-- Modelled from the spec: the PMP reply opcode bit (0x80). -/
def pmpOpReply : Nat := 128

/-- Modelled from the spec: the PMP map-public-address opcode (0). -/
def pmpOpMapPublicAddr : Nat := 0

/-- Modelled from the spec: PMP result code OK (0). -/
def pmpCodeOK : Nat := 0

/-- Structured result of parsePCPResponse (codec not under src/; fields as
used by Probe: OpCode, ResultCode, Epoch). -/
structure PCPResponse where
  OpCode : Nat
  ResultCode : Nat
  Epoch : Nat := 0
deriving DecidableEq, Repr

/-- Structured result of parsePMPResponse (codec not under src/; fields as
used by Probe: OpCode, ResultCode, PublicAddr, SecondsSinceEpoch). -/
structure PMPResponse where
  OpCode : Nat
  ResultCode : Nat
  PublicAddr : String := ""
  SecondsSinceEpoch : Nat := 0
deriving DecidableEq, Repr

/-- One UDP datagram read by the Probe loop, represented by the outcomes of
the two parse attempts the loop performs on it, together with the wall-clock
time (`now`, nanoseconds) at which it is processed. -/
structure PMPacket where
  pcp : Option PCPResponse := none
  pmp : Option PMPResponse := none
  now : Nat := 0
deriving DecidableEq, Repr

/-- The portmapper Client fields written by the Probe read loop. -/
structure PMClientTimes where
  pcpSawTime : Option Nat := none
  pmpPubIP : String := ""
  pmpPubIPTime : Option Nat := none
  pmpLastEpoch : Nat := 0
deriving DecidableEq, Repr

/-- The body of the Probe read loop for one received datagram
(probe.go lines 100-134): first the PCP parse with its announce-reply /
OK / NotAuthorized branches (OK and NotAuthorized `continue`, other result
codes fall through to the PMP parse), then the PMP parse. Returns the
updated client timestamps, result, and the `pcpHeard` flag; the last
component records whether a `continue` was taken before the PMP parse. -/
def processPMPacket (st : PMClientTimes) (res : ProbeResult) (pcpHeard : Bool)
    (p : PMPacket) : PMClientTimes × ProbeResult × Bool :=
  let afterPCP : PMClientTimes × ProbeResult × Bool × Bool :=
    match p.pcp with
    | some pres =>
      if pres.OpCode = pcpOpReply ||| pcpOpAnnounce then
        let st := { st with pcpSawTime := some p.now }
        if pres.ResultCode = pcpCodeOK then
          (st, { res with PCP := true }, true, true)
        else if pres.ResultCode = pcpCodeNotAuthorized then
          (st, { res with PCP := false }, true, true)
        else
          (st, res, true, false)
      else
        (st, res, pcpHeard, false)
    | none => (st, res, pcpHeard, false)
  let st := afterPCP.1
  let res := afterPCP.2.1
  let pcpHeard := afterPCP.2.2.1
  let handled := afterPCP.2.2.2
  if handled then (st, res, pcpHeard)
  else
    match p.pmp with
    | some pres =>
      if pres.OpCode = pmpOpReply ||| pmpOpMapPublicAddr ∧ pres.ResultCode = pmpCodeOK then
        ({ st with pmpPubIP := pres.PublicAddr, pmpPubIPTime := some p.now,
                   pmpLastEpoch := pres.SecondsSinceEpoch },
         { res with PMP := true }, pcpHeard)
      else (st, res, pcpHeard)
    | none => (st, res, pcpHeard)

/-- How the blocking ReadFrom finally fails once the packet list is
exhausted: the 250 ms socket deadline fired, or some other read error. -/
inductive ReadEnd where
  | deadline : ReadEnd
  | fail (msg : String) : ReadEnd
deriving DecidableEq, Repr

/-- The Probe read loop (probe.go lines 86-135): stop as soon as a PCP
response has been heard and the PMP result is positive; otherwise read the
next datagram; once reads fail, a deadline expiry is not an error
(`if ctx.Err() == context.DeadlineExceeded { err = nil }`). -/
def probeReadLoop (st : PMClientTimes) (res : ProbeResult) (pcpHeard : Bool)
    (pkts : List PMPacket) (endEv : ReadEnd) :
    PMClientTimes × ProbeResult × Option String :=
  if pcpHeard ∧ res.PMP then (st, res, none)
  else
    match pkts with
    | [] =>
      (st, res, match endEv with
        | .deadline => none
        | .fail m => some m)
    | p :: rest =>
      let s := processPMPacket st res pcpHeard p
      probeReadLoop s.1 s.2.1 s.2.2 rest endEv

end Portmapper

namespace Netcheck

/-- The netcheck Client fields guarded by `c.mu` that GetReport's entry
reads and writes (netcheck.go lines 339-345). `curStateBusy` models
`curState != nil`. Times are wall-clock nanoseconds. -/
structure ClientState where
  nextFull : Bool := false
  prev : List (Nat × Report) := []
  last : Option Report := none
  lastFull : Nat := 0
  curStateBusy : Bool := false
deriving DecidableEq, Repr

/-- The error string GetReport returns for a nil DERP map. -/
def errNilDERPMap : String := "netcheck: GetReport: DERP map is nil"

/-- The error string GetReport returns for a concurrent call. -/
def errConcurrent : String := "invalid concurrent call to GetReport"

/-- fiveMinutes = 5 * time.Minute in nanoseconds. -/
def fiveMinutes : Nat := 300000000000

/-- What GetReport's successful entry hands to the rest of the call. -/
structure EntrySetup where
  incremental : Bool
  lastUsed : Option Report
deriving DecidableEq, Repr

/-- The entry of Client.GetReport (netcheck.go lines 905-939): the nil-map
check, the concurrent-call check, and the full-versus-incremental decision
(`last` is dropped when `nextFull` is set or the last full report is more
than five minutes old). Returns the error (if any), the client state after
the entry, and the setup for the rest of the call. -/
def getReportEntry (c : ClientState) (dm : Option DERPMap) (now : Nat) :
    Option String × ClientState × Option EntrySetup :=
  if dm.isNone then (some errNilDERPMap, c, none)
  else if c.curStateBusy then (some errConcurrent, c, none)
  else
    let last := c.last
    let full := c.nextFull ∨ fiveMinutes < now - c.lastFull
    let last := if full then none else last
    let c' := if full then
        { c with curStateBusy := true, nextFull := false, lastFull := now }
      else
        { c with curStateBusy := true }
    (none, c', some { incremental := last.isSome, lastUsed := last })

/-- Address family of a `netaddr.IPPort`; `none` models the zero IPPort. -/
inductive IPFamily where
  | none : IPFamily
  | v4 : IPFamily
  | v6 : IPFamily
deriving DecidableEq, Repr

/-- One successful STUN probe as delivered to `addNodeLatency`: the probed
node's name and region id, the address family and rendered `ip:port` of the
NAT-reflexive source of the response, and the measured latency `d` (ns). -/
structure StunEvent where
  nodeName : String
  regionID : Nat
  fam : IPFamily
  ipPortStr : String
  d : Nat
deriving DecidableEq, Repr

/-- One successful HTTPS fallback measurement for a region
(netcheck.go lines 1054-1076): the region id, whether the TLS connection's
remote IP was IPv4 (`is4 = false` meaning IPv6), and the measured latency. -/
structure HttpsEvent where
  regionID : Nat
  is4 : Bool
  d : Nat
deriving DecidableEq, Repr

/-- The per-call mutable state of netcheck (reportState), restricted to the
fields that influence the returned Report. -/
structure ReportState where
  incremental : Bool
  sentHairCheck : Bool := false
  gotEP4 : String := ""
  report : Report := newReport
deriving DecidableEq, Repr

/-- reportState.addNodeLatency (netcheck.go lines 805-854): set `UDP`,
fold the latency into `RegionLatency`, then per address family fold it into
the family map, set the family flag, record the global endpoint, start the
hairpin check on the first IPv4 endpoint, and decide
`MappingVariesByDestIP` by comparing subsequent IPv4 endpoints with the
first one. (The timer bookkeeping of the source does not touch the report
and is not modelled; `startHairCheckLocked` only flips `sentHairCheck`
unless the run is incremental.) -/
def addNodeLatency (rs : ReportState) (e : StunEvent) : ReportState :=
  let ret := rs.report
  let ret := { ret with UDP := true,
                        RegionLatency := updateLatency ret.RegionLatency e.regionID e.d }
  match e.fam with
  | .v6 =>
    { rs with report :=
      { ret with RegionV6Latency := updateLatency ret.RegionV6Latency e.regionID e.d,
                 IPv6 := true,
                 GlobalV6 := e.ipPortStr } }
  | .v4 =>
    let ret := { ret with RegionV4Latency := updateLatency ret.RegionV4Latency e.regionID e.d,
                          IPv4 := true }
    if rs.gotEP4 = "" then
      { rs with report := { ret with GlobalV4 := e.ipPortStr },
                gotEP4 := e.ipPortStr,
                sentHairCheck := rs.sentHairCheck ∨ ¬rs.incremental }
    else if rs.gotEP4 ≠ e.ipPortStr then
      { rs with report := { ret with MappingVariesByDestIP := .set true } }
    else if ret.MappingVariesByDestIP = .unset then
      { rs with report := { ret with MappingVariesByDestIP := .set false } }
    else
      { rs with report := ret }
  | .none => { rs with report := ret }

/-- How the hairpin wait resolves on a non-incremental report: the echoed
packet arrived on `gotHairSTUN`, the 100 ms `hairTimeout` fired, or the
overall context was done first. -/
inductive HairOutcome where
  | arrived : HairOutcome
  | timedOut : HairOutcome
  | ctxDone : HairOutcome
deriving DecidableEq, Repr

/-- reportState.waitHairCheck (netcheck.go lines 763-792): an incremental
report copies the previous report's HairPinning verbatim; a full report
that never sent the hairpin probe leaves HairPinning untouched; otherwise
the outcome of the select decides it (context expiry leaves it unset). -/
def waitHairCheck (last : Option Report) (out : HairOutcome) (rs : ReportState) :
    ReportState :=
  if rs.incremental then
    match last with
    | some l => { rs with report := { rs.report with HairPinning := l.HairPinning } }
    | none => rs
  else if ¬rs.sentHairCheck then rs
  else
    match out with
    | .arrived => { rs with report := { rs.report with HairPinning := .set true } }
    | .timedOut => { rs with report := { rs.report with HairPinning := .set false } }
    | .ctxDone => rs

/-- reportState.probePortMapServices (netcheck.go lines 869-885): UPnP, PMP
and PCP are set to false up front; if the port-map Probe fails the function
returns with them still false, otherwise they are overwritten with the
probe's results. `outcome = none` models `Probe` returning an error. -/
def probePortMapServices (outcome : Option Portmapper.ProbeResult) (rs : ReportState) :
    ReportState :=
  let rs := { rs with report := { rs.report with UPnP := .set false,
                                                 PMP := .set false,
                                                 PCP := .set false } }
  match outcome with
  | none => rs
  | some res =>
    { rs with report := { rs.report with UPnP := .set res.UPnP,
                                         PMP := .set res.PMP,
                                         PCP := .set res.PCP } }

/-- The HTTPS fallback's write for one region (netcheck.go lines 1060-1072):
a direct map assignment (not `updateLatency`), and the family flag of the
TLS connection's remote IP. -/
def addHttpsLatency (rs : ReportState) (h : HttpsEvent) : ReportState :=
  { rs with report :=
    { rs.report with
      RegionLatency := mapSet rs.report.RegionLatency h.regionID h.d,
      IPv4 := rs.report.IPv4 ∨ h.is4,
      IPv6 := rs.report.IPv6 ∨ ¬h.is4 } }

/-- A report mutation processed after the HTTPS fallback's `need` list has
been computed: either a late STUN response or an HTTPS measurement (the
socket reader keeps dispatching to ReceiveSTUNPacket until GetReport
returns, so the two interleave under `rs.mu`). -/
inductive Phase2Event where
  | stun (e : StunEvent) : Phase2Event
  | https (h : HttpsEvent) : Phase2Event
deriving DecidableEq, Repr

/-- One linearised run of the report-building part of GetReport. `phase1`
holds the STUN responses processed before the HTTPS `need` list is
computed; `phase2` holds the mutations after that point. -/
structure RunInput where
  dm : DERPMap
  incremental : Bool := false
  lastReport : Option Report := none
  portMapperConfigured : Bool := false
  portmapOutcome : Option Portmapper.ProbeResult := none
  phase1 : List StunEvent := []
  hairOutcome : HairOutcome := .ctxDone
  phase2 : List Phase2Event := []
deriving DecidableEq, Repr

/-- State of the call when GetReport computes the HTTPS `need` list: the
phase-1 STUN responses have been folded in, the hairpin wait has resolved,
and the port-map probe (when configured) has been waited for. -/
def midState (run : RunInput) : ReportState :=
  let rs0 : ReportState := { incremental := run.incremental }
  let rs1 := run.phase1.foldl addNodeLatency rs0
  let rs2 := waitHairCheck run.lastReport run.hairOutcome rs1
  if run.portMapperConfigured then probePortMapServices run.portmapOutcome rs2 else rs2

/-- Apply one phase-2 event. -/
def applyPhase2Event (rs : ReportState) (e : Phase2Event) : ReportState :=
  match e with
  | .stun s => addNodeLatency rs s
  | .https h => addHttpsLatency rs h

/-- The Report a linearised GetReport run returns (the final Clone only
copies the maps). -/
def runGetReport (run : RunInput) : Report :=
  (run.phase2.foldl applyPhase2Event (midState run)).report

/-- The STUN events of a run, in processing order. -/
def stunEvents (run : RunInput) : List StunEvent :=
  run.phase1 ++ run.phase2.filterMap (fun e =>
    match e with
    | .stun s => some s
    | .https _ => none)

/-- The HTTPS events of a run, in processing order. -/
def httpsEvents (run : RunInput) : List HttpsEvent :=
  run.phase2.filterMap (fun e =>
    match e with
    | .stun _ => none
    | .https h => some h)

/-- Whether a phase-2 event is a STUN response. -/
def isStunEvent : Phase2Event → Bool
  | .stun _ => true
  | .https _ => false

/-- Whether a phase-2 event sets the report's IPv4 flag. -/
def contributes4 : Phase2Event → Bool
  | .stun s => s.fam == IPFamily.v4
  | .https h => h.is4

/-- Whether a phase-2 event sets the report's IPv6 flag. -/
def contributes6 : Phase2Event → Bool
  | .stun s => s.fam == IPFamily.v6
  | .https h => !h.is4

/-- Whether `dm` has a node named `name` whose RegionID back-reference is
`rid` (`namedNode` looks nodes up by name; `addNodeLatency` uses the node's
own RegionID field). -/
def nodeInDM (dm : DERPMap) (name : String) (rid : Nat) : Bool :=
  dm.Regions.any (fun kr =>
    kr.2.Nodes.any (fun n => n.Name == name && n.RegionID == rid))

/-- A STUN event is realisable if its node exists in the relay map, its
family is a real one (ReceiveSTUNPacket only delivers concrete source
addresses) and its rendered endpoint is the nonempty `net.JoinHostPort`
output. -/
def stunEventValid (dm : DERPMap) (e : StunEvent) : Bool :=
  nodeInDM dm e.nodeName e.regionID && e.fam != IPFamily.none && e.ipPortStr != ""

/-- An HTTPS event is realisable if GetReport put its region on the `need`
list: the region is in the map with a non-STUN-only node, and had no
recorded latency when the list was computed. -/
def httpsEventValid (dm : DERPMap) (mid : ReportState) (h : HttpsEvent) : Bool :=
  (mapGet mid.report.RegionLatency h.regionID).isNone &&
  dm.Regions.any (fun kr =>
    kr.1 == h.regionID && kr.2.RegionID == h.regionID && regionHasDERPNode kr.2)

/-- A run of the model is realisable by GetReport: every STUN event probes
a node of the map; an incremental run has a previous report (GetReport sets
`incremental = (last != nil)`); the HTTPS fallback only runs when no UDP
was seen by the time the `need` list is computed; every HTTPS region was on
the `need` list, and each region is measured at most once. -/
def validRun (run : RunInput) : Bool :=
  run.phase1.all (stunEventValid run.dm) &&
  (run.phase2.filterMap (fun e =>
    match e with
    | .stun s => some s
    | .https _ => none)).all (stunEventValid run.dm) &&
  (!run.incremental || run.lastReport.isSome) &&
  ((httpsEvents run).isEmpty || !(midState run).report.UDP) &&
  (httpsEvents run).all (httpsEventValid run.dm (midState run)) &&
  ((httpsEvents run).map (fun h => h.regionID)).Nodup

/-- Classification of a textual IP literal, as far as the planner needs it. -/
inductive IPClass where
  | invalid : IPClass
  | ip4 : IPClass
  | ip6 : IPClass
deriving DecidableEq, Repr

/-- One decimal octet of a dotted quad: one to three digits, value ≤ 255. -/
def decOctet (s : String) : Bool :=
  decide (0 < s.length) && decide (s.length ≤ 3) &&
  s.all Char.isDigit &&
  (match s.toNat? with
   | some v => decide (v ≤ 255)
   | none => false)

/-- Models the classification performed by `netaddr.ParseIP` as used by
`nodeMight4`/`nodeMight6`: a dotted quad parses as IPv4, a string
containing a colon parses as IPv6, anything else fails to parse (yielding
the zero IP, for which both `Is4` and `Is6` are false). Only the
classification is modelled, not the parsed address. -/
def parseIPClass (s : String) : IPClass :=
  if s.contains ':' then .ip6
  else
    match s.splitOn "." with
    | [a, b, c, d] =>
      if decOctet a && decOctet b && decOctet c && decOctet d then .ip4 else .invalid
    | _ => .invalid

/-- netcheck.nodeMight4 (netcheck.go lines 637-643): true unless the node's
IPv4 field is a nonempty string that does not parse as an IPv4 address. -/
def nodeMight4 (n : DERPNode) : Bool :=
  if n.IPv4 = "" then true
  else parseIPClass n.IPv4 == IPClass.ip4

/-- netcheck.nodeMight6 (netcheck.go lines 625-632). -/
def nodeMight6 (n : DERPNode) : Bool :=
  if n.IPv6 = "" then true
  else parseIPClass n.IPv6 == IPClass.ip6

/-- probeProto. -/
inductive ProbeProto where
  | v4 : ProbeProto
  | v6 : ProbeProto
  | https : ProbeProto
deriving DecidableEq, Repr

/-- netcheck.probe: start delay (ns), node name, protocol. The `wait`
field is always left zero by the planners. -/
structure Probe where
  delay : Nat
  node : String
  proto : ProbeProto
  wait : Nat := 0
deriving DecidableEq, Repr

/-- netcheck.probePlan: map from set name to probe list, modelled as an
association list (the Go map's keys, one or two per region, are distinct
for distinct region ids, so insertion order is the only lost detail). -/
abbrev ProbePlan := List (String × List Probe)

/-- Lookup of a plan set by name. -/
def planGet (plan : ProbePlan) (key : String) : Option (List Probe) :=
  (plan.find? (fun p => p.1 == key)).map (fun p => p.2)

/-- The plan-set name `region-<id>-v4` or `region-<id>-v6`. -/
def regionKey (rid : Nat) (suffix : String) : String :=
  "region-" ++ toString rid ++ "-" ++ suffix

/-- The comparator of netcheck.sortRegions (netcheck.go lines 493-504):
non-zero previous latencies sort before zero ones, then ascending latency. -/
def regionLess (last : Report) (a b : DERPRegion) : Bool :=
  let da := mapGetD last.RegionLatency a.RegionID 0
  let db := mapGetD last.RegionLatency b.RegionID 0
  if db == 0 && da != 0 then true
  else if da == 0 then false
  else decide (da < db)

/-- Insertion of one region into an already-sorted list. -/
def insertRegion (last : Report) (r : DERPRegion) :
    List DERPRegion → List DERPRegion
  | [] => [r]
  | x :: xs => if regionLess last r x then r :: x :: xs
               else x :: insertRegion last r xs

/-- netcheck.sortRegions (netcheck.go lines 485-506): drop regions with
`Avoid` set, then sort by the previous report's latency (the source uses
`sort.Slice`; a deterministic insertion sort with the same comparator
stands in for it). -/
def sortRegions (dm : DERPMap) (last : Report) : List DERPRegion :=
  (dm.Regions.map (fun kr => kr.2)).filter (fun reg => !reg.Avoid)
    |>.foldl (fun acc r => insertRegion last r acc) []

/-- numIncrementalRegions = 3. -/
def numIncrementalRegions : Nat := 3

/-- The probes of one region in the initial plan
(netcheck.go lines 599-611): three tries, node `try mod len(Nodes)`, delay
`try * 100 ms`, an IPv4 probe iff the interface has IPv4 and the node might
answer v4 STUN, and the mirror for IPv6. (The source indexes
`reg.Nodes[try%len(reg.Nodes)]` without an emptiness check and would panic
on a region with no nodes; the model skips such a try, and every theorem
about this function assumes `reg.Nodes ≠ []`.) -/
def initialTryStep (reg : DERPRegion) (ifState : IfState)
    (acc : List Probe × List Probe) (tryN : Nat) : List Probe × List Probe :=
  match reg.Nodes.get? (tryN % reg.Nodes.length) with
  | none => acc
  | some n =>
    let delay := tryN * defaultInitialRetransmitTime
    let p4 := if ifState.HaveV4 && nodeMight4 n
              then acc.1 ++ [{ delay := delay, node := n.Name, proto := .v4 }]
              else acc.1
    let p6 := if ifState.HaveV6 && nodeMight6 n
              then acc.2 ++ [{ delay := delay, node := n.Name, proto := .v6 }]
              else acc.2
    (p4, p6)

/-- The IPv4 probe (if any) that try number `tryN` contributes for `reg` in
the initial plan. -/
def initialProbe4 (reg : DERPRegion) (ifState : IfState) (tryN : Nat) :
    Option Probe :=
  match reg.Nodes.get? (tryN % reg.Nodes.length) with
  | none => none
  | some n =>
    if ifState.HaveV4 && nodeMight4 n then
      some { delay := tryN * defaultInitialRetransmitTime, node := n.Name,
             proto := .v4 }
    else none

/-- The IPv6 probe (if any) that try number `tryN` contributes for `reg` in
the initial plan. -/
def initialProbe6 (reg : DERPRegion) (ifState : IfState) (tryN : Nat) :
    Option Probe :=
  match reg.Nodes.get? (tryN % reg.Nodes.length) with
  | none => none
  | some n =>
    if ifState.HaveV6 && nodeMight6 n then
      some { delay := tryN * defaultInitialRetransmitTime, node := n.Name,
             proto := .v6 }
    else none

def initialRegionProbes (reg : DERPRegion) (ifState : IfState) :
    List Probe × List Probe :=
  (List.range 3).foldl (initialTryStep reg ifState) ([], [])

/-- The plan entries one region contributes: its v4 set and its v6 set,
each only when nonempty. -/
def regionPlanEntries (rid : Nat) (p4 p6 : List Probe) : ProbePlan :=
  (if p4.length > 0 then [(regionKey rid "v4", p4)] else []) ++
  (if p6.length > 0 then [(regionKey rid "v6", p6)] else [])

/-- netcheck.makeProbePlanInitial (netcheck.go lines 596-620). Note the
source iterates over every region of the map with no test of `Avoid`. -/
def makeProbePlanInitial (dm : DERPMap) (ifState : IfState) : ProbePlan :=
  dm.Regions.flatMap (fun kr =>
    let p := initialRegionProbes kr.2 ifState
    regionPlanEntries kr.2.RegionID p.1 p.2)

/-- The number of tries a kept region gets in the incremental plan
(netcheck.go lines 539-560): one by default, two for the two fastest
regions, four for the previous preferred region. -/
def incrTries (reg : DERPRegion) (ri : Nat) (last : Report) : Nat :=
  if reg.RegionID = last.PreferredDERP then 4
  else if ri < 2 then 2 else 1

/-- The per-try delay of the incremental plan (netcheck.go lines 571-578):
`try * (previous latency * 120 / 100)`, defaulting to 200 ms when there is
no previous latency, plus `try * 50 ms` once `try > 1`. -/
def incrDelay (reg : DERPRegion) (last : Report) (tryN : Nat) : Nat :=
  let prevLatency0 := mapGetD last.RegionLatency reg.RegionID 0 * 120 / 100
  let prevLatency := if prevLatency0 = 0 then defaultActiveRetransmitTime
                     else prevLatency0
  tryN * prevLatency + (if 1 < tryN then tryN * 50000000 else 0)

/-- One iteration of the incremental plan's try loop
(netcheck.go lines 562-585). The accumulator carries the mutable `do6`
flag (`do4` never changes inside the loop) and the two probe lists. An
empty node list `continue`s; `do6` is cleared on a retry when the previous
report had no IPv6 latency. -/
def incrTryStep (reg : DERPRegion) (last : Report) (do4 had6 : Bool)
    (acc : Bool × List Probe × List Probe) (tryN : Nat) :
    Bool × List Probe × List Probe :=
  if reg.Nodes.isEmpty then acc
  else
    let do6 := if tryN ≠ 0 ∧ ¬had6 then false else acc.1
    let n := reg.Nodes.getD (tryN % reg.Nodes.length) default
    let delay := incrDelay reg last tryN
    (do6,
     (if do4 then acc.2.1 ++ [{ delay := delay, node := n.Name, proto := .v4 }]
      else acc.2.1),
     (if do6 then acc.2.2 ++ [{ delay := delay, node := n.Name, proto := .v6 }]
      else acc.2.2))

/-- The address-family switches of one kept region
(netcheck.go lines 532-554): start from the interface families; the third
and slower regions of a dual-stack machine alternate between the families
by rank parity; regions beyond the fastest two do not try IPv6 at all when
the previous report had none. -/
def incrDoFlags (ri : Nat) (have4if have6if had6 hadBoth : Bool) : Bool × Bool :=
  let do4 := have4if
  let do6 := have6if
  let isFastestTwo := ri < 2
  let p := if isFastestTwo then (do4, do6)
           else if hadBoth then (if ri % 2 = 0 then (true, false) else (false, true))
           else (do4, do6)
  (p.1, if ¬isFastestTwo ∧ ¬had6 then false else p.2)

/-- The IPv4 probe of try number `t` for a kept region of the incremental
plan: delay `t * (prev latency * 1.2)` (default 200 ms) plus `t * 50 ms`
for `t > 1`, node `t mod len(Nodes)`. -/
def incrProbe4 (reg : DERPRegion) (last : Report) (t : Nat) : Probe :=
  { delay := incrDelay reg last t,
    node := (reg.Nodes.getD (t % reg.Nodes.length) default).Name,
    proto := .v4 }

/-- The IPv6 probe of try number `t` for a kept region. -/
def incrProbe6 (reg : DERPRegion) (last : Report) (t : Nat) : Probe :=
  { delay := incrDelay reg last t,
    node := (reg.Nodes.getD (t % reg.Nodes.length) default).Name,
    proto := .v6 }

/-- The probes of one kept region in the incremental plan. -/
def incrRegionProbes (reg : DERPRegion) (ri : Nat) (last : Report)
    (have4if have6if had6 hadBoth : Bool) : List Probe × List Probe :=
  let flags := incrDoFlags ri have4if have6if had6 hadBoth
  let tries := incrTries reg ri last
  let r := (List.range tries).foldl (incrTryStep reg last flags.1 had6)
    (flags.2, [], [])
  (r.2.1, r.2.2)

/-- netcheck.makeProbePlan (netcheck.go lines 515-594): with no previous
report or no previous latency data, build the initial plan; otherwise keep
the three fastest non-avoided regions of the previous report and build
their probe sets. -/
def makeProbePlan (dm : DERPMap) (ifState : IfState) (lastOpt : Option Report) :
    ProbePlan :=
  match lastOpt with
  | none => makeProbePlanInitial dm ifState
  | some last =>
    if last.RegionLatency.isEmpty then makeProbePlanInitial dm ifState
    else
      let have6if := ifState.HaveV6
      let have4if := ifState.HaveV4
      if ¬have4if ∧ ¬have6if then []
      else
        let had4 := decide (0 < last.RegionV4Latency.length)
        let had6 := decide (0 < last.RegionV6Latency.length)
        let hadBoth := have6if && had4 && had6
        (((sortRegions dm last).take numIncrementalRegions).enum).flatMap
          (fun rireg =>
            let p := incrRegionProbes rireg.2 rireg.1 last have4if have6if had6 hadBoth
            regionPlanEntries rireg.2.RegionID p.1 p.2)

/-- The report-history fields of the Client used by
addReportHistoryAndSetPreferredDERP: the time-keyed map of recent reports
and the most recent report. -/
structure ClientHist where
  prev : List (Nat × Report) := []
  last : Option Report := none
deriving DecidableEq, Repr

/-- Assignment `c.prev[now] = r` on the association-list model of the
time-keyed report map. -/
def timeMapSet (m : List (Nat × Report)) (k : Nat) (r : Report) :
    List (Nat × Report) :=
  if m.any (fun p => p.1 == k) then
    m.map (fun p => if p.1 == k then (k, r) else p)
  else
    m ++ [(k, r)]

/-- maxAge = 5 * time.Minute: reports older than this fall out of the
history. -/
def maxAge : Nat := 300000000000

/-- Fold one report's region latencies into the best-recent map. -/
def bestRecentAdd (acc : List (Nat × Nat)) (r : Report) : List (Nat × Nat) :=
  r.RegionLatency.foldl
    (fun a kd =>
      match mapGet a kd.1 with
      | some bd => if kd.2 < bd then mapSet a kd.1 kd.2 else a
      | none => mapSet a kd.1 kd.2)
    acc

/-- The best recent latency per region (netcheck.go lines 1222-1235): over
every report of the history not older than `maxAge` (the current report has
just been stored at `now`), the minimum latency recorded for each region. -/
def bestRecentOf (prevs : List (Nat × Report)) (now : Nat) : List (Nat × Nat) :=
  (prevs.filter (fun tr => !decide (maxAge < now - tr.1))).foldl
    (fun acc tr => bestRecentAdd acc tr.2) []

/-- One iteration of the preferred-region selection loop
(netcheck.go lines 1241-1250). The accumulator is
(PreferredDERP so far, bestAny, oldRegionCurLatency). -/
def selStep (bestRecent : List (Nat × Nat)) (prevDERP : Nat)
    (acc : Nat × Nat × Nat) (kd : Nat × Nat) : Nat × Nat × Nat :=
  let oldLat := if kd.1 = prevDERP then kd.2 else acc.2.2
  let best := mapGetD bestRecent kd.1 0
  if acc.1 = 0 ∨ best < acc.2.1 then (kd.1, best, oldLat)
  else (acc.1, acc.2.1, oldLat)

/-- Client.addReportHistoryAndSetPreferredDERP (netcheck.go lines
1205-1261): store the new report in the history, prune entries older than
five minutes, compute each region's best recent latency, pick the region of
the current report with the smallest best-recent latency, and stick with
the previous preferred region when it is still present with a nonzero
current latency and the winner is no better than two thirds of it
(`bestAny > oldRegionCurLatency/3*2` in integer nanoseconds). Returns the
report with `PreferredDERP` set and the updated history. -/
def addReportHistoryAndSetPreferredDERP (hist : ClientHist) (now : Nat)
    (r : Report) : Report × ClientHist :=
  let prevDERP := match hist.last with
    | some l => l.PreferredDERP
    | none => 0
  let prevs := timeMapSet hist.prev now r
  let kept := prevs.filter (fun tr => !decide (maxAge < now - tr.1))
  let bestRecent := bestRecentOf prevs now
  let sel := r.RegionLatency.foldl (selStep bestRecent prevDERP)
    (r.PreferredDERP, 0, 0)
  let pref := if prevDERP ≠ 0 ∧ sel.1 ≠ prevDERP ∧ sel.2.2 ≠ 0 ∧
                 sel.2.2 / 3 * 2 < sel.2.1
              then prevDERP else sel.1
  let r' := { r with PreferredDERP := pref }
  (r', { prev := kept.map (fun tr => if tr.1 == now then (now, r') else tr),
         last := some r' })

/-- Invariant tying the family latency maps to the region latency map: the
region map has every family key with a value no larger than the family
value, and every family key is the region of some STUN event of `seen`. -/
def latencyDominated (rs : ReportState) (seen : List StunEvent) : Prop :=
  (∀ k fv, mapGet rs.report.RegionV4Latency k = some fv →
    ((∃ v, mapGet rs.report.RegionLatency k = some v ∧ v ≤ fv) ∧
     ∃ e ∈ seen, e.regionID = k)) ∧
  (∀ k fv, mapGet rs.report.RegionV6Latency k = some fv →
    ((∃ v, mapGet rs.report.RegionLatency k = some v ∧ v ≤ fv) ∧
     ∃ e ∈ seen, e.regionID = k))

/-! Concrete inputs used by counterexamples and witnesses. -/

/-- A region with `Avoid = true` and one node. -/
def c2exRegion : DERPRegion :=
  { RegionID := 1, Avoid := true, Nodes := [{ Name := "n1", RegionID := 1 }] }

/-- A relay map whose only region carries `Avoid = true`. -/
def c2exDM : DERPMap := { Regions := [(1, c2exRegion)] }

/-- A relay map with one region (id 1) holding one plain node. -/
def exDMone : DERPMap :=
  { Regions := [(1, { RegionID := 1, Nodes := [{ Name := "n1", RegionID := 1 }] })] }

/-- The mainline UDP-blocked path: no STUN response ever arrives and the
HTTPS fallback measures region 1 over an IPv4 TLS connection. -/
def c1Run : RunInput :=
  { dm := exDMone,
    phase2 := [.https { regionID := 1, is4 := true, d := 40000000 }] }

/-- A run with no events at all (UDP entirely blocked, no fallback
success). -/
def emptyRun : RunInput := { dm := exDMone }

/-- A run with the port mapper configured whose port-map probe fails
(for example with ErrGatewayNotFound). -/
def c10Run : RunInput :=
  { dm := exDMone, portMapperConfigured := true, portmapOutcome := none }

/-- An incremental run whose predecessor report had decided HairPinning. -/
def c6wRun : RunInput :=
  { dm := exDMone, incremental := true,
    lastReport := some { HairPinning := .set true } }

/-- A full run with one successful IPv4 STUN probe whose hairpin echo
timed out. -/
def c6fRun : RunInput :=
  { dm := exDMone,
    phase1 := [{ nodeName := "n1", regionID := 1, fam := .v4,
                 ipPortStr := "198.51.100.7:40000", d := 5000000 }],
    hairOutcome := .timedOut }

/-- A four-region relay map for exercising the incremental plan. -/
def c7DM : DERPMap :=
  { Regions := [
      (1, { RegionID := 1, Nodes := [{ Name := "a", RegionID := 1 }] }),
      (2, { RegionID := 2, Nodes := [{ Name := "b", RegionID := 2 }] }),
      (3, { RegionID := 3, Nodes := [{ Name := "c", RegionID := 3 }] }),
      (4, { RegionID := 4, Nodes := [{ Name := "d", RegionID := 4 }] })] }

/-- A previous report preferring region 1 (50 ms) with region 2 fastest
(30 ms). -/
def c7Last : Report :=
  { PreferredDERP := 1,
    RegionLatency := [(1, 50000000), (2, 30000000), (3, 80000000),
                      (4, 100000000)],
    RegionV4Latency := [(1, 50000000)],
    RegionV6Latency := [(1, 50000000)] }

/-- The v4 probe set the incremental plan produces for preferred region 1:
four tries at delays 0, 60 ms (= 50 ms * 1.2), 220 ms (2*60+2*50) and
330 ms (3*60+3*50). -/
def c7Probes : List Probe :=
  [{ delay := 0, node := "a", proto := .v4 },
   { delay := 60000000, node := "a", proto := .v4 },
   { delay := 220000000, node := "a", proto := .v4 },
   { delay := 330000000, node := "a", proto := .v4 }]

/-- A relay map with a single region (id 1) holding two nodes. -/
def exDMtwoNodes : DERPMap :=
  { Regions := [(1, { RegionID := 1,
                      Nodes := [{ Name := "a", RegionID := 1 },
                                { Name := "b", RegionID := 1 }] })] }

/-- Two IPv4 STUN successes from probes to the two nodes of the same
region, behind a NAT that presents a different reflexive port per
destination (both probes of the `region-1-v4` set were already in flight
when the first response arrived, so both responses are processed). -/
def c5Run : RunInput :=
  { dm := exDMtwoNodes,
    phase1 := [{ nodeName := "a", regionID := 1, fam := .v4,
                 ipPortStr := "198.51.100.7:40000", d := 5000000 },
               { nodeName := "b", regionID := 1, fam := .v4,
                 ipPortStr := "198.51.100.7:40001", d := 6000000 }] }

/-- A relay map with two regions, one node each. -/
def exDMtwoRegions : DERPMap :=
  { Regions := [(1, { RegionID := 1, Nodes := [{ Name := "a", RegionID := 1 }] }),
                (2, { RegionID := 2, Nodes := [{ Name := "b", RegionID := 2 }] })] }

/-- A previous report preferring region 1, for the stickiness boundary
example. -/
def c3Last : Report := { PreferredDERP := 1 }

/-- Current report: region 1 at 90 ms, challenger region 2 at 61 ms. -/
def c3Cur90 : Report := { RegionLatency := [(1, 90000000), (2, 61000000)] }

/-- Current report: region 1 at 90 ms, challenger region 2 at 59 ms. -/
def c3Cur59 : Report := { RegionLatency := [(1, 90000000), (2, 59000000)] }

/-- History whose last report preferred region 1 (empty prior map). -/
def c3Hist : ClientHist := { last := some c3Last }

/-- A relay map with one region (id 5) holding one plain node. -/
def exDMfive : DERPMap :=
  { Regions := [(5, { RegionID := 5, Nodes := [{ Name := "e", RegionID := 5 }] })] }

/-- The race between a late STUN response and the HTTPS fallback: no STUN
response had arrived when the HTTPS `need` list was computed (so region 5
was put on it), then a late IPv4 STUN response for region 5 is processed
(the socket reader still dispatches), and finally the HTTPS measurement
overwrites `RegionLatency[5]` with its larger value. -/
def c4Run : RunInput :=
  { dm := exDMfive,
    phase2 := [.stun { nodeName := "e", regionID := 5, fam := .v4,
                       ipPortStr := "198.51.100.7:40000", d := 10000000 },
               .https { regionID := 5, is4 := true, d := 40000000 }] }

/-- A run exercising the amended C4 statement: a STUN success for region 1
and an HTTPS measurement for the disjoint region 5. -/
def c4wRun : RunInput :=
  { dm := { Regions := exDMfive.Regions ++ exDMone.Regions },
    phase2 := [.stun { nodeName := "n1", regionID := 1, fam := .v4,
                       ipPortStr := "198.51.100.7:40000", d := 10000000 }],
    hairOutcome := .timedOut }

/-- Two IPv4 STUN successes to distinct regions observing distinct
reflexive endpoints (the spec's S2 scenario). -/
def c5wRun : RunInput :=
  { dm := exDMtwoRegions,
    phase1 := [{ nodeName := "a", regionID := 1, fam := .v4,
                 ipPortStr := "198.51.100.7:40000", d := 5000000 },
               { nodeName := "b", regionID := 2, fam := .v4,
                 ipPortStr := "198.51.100.7:40001", d := 6000000 }] }

/-! Helper lemmas: which report fields each event can touch. -/

theorem addNodeLatency_preserved (rs : ReportState) (e : StunEvent) :
    (addNodeLatency rs e).report.HairPinning = rs.report.HairPinning ∧
    (addNodeLatency rs e).report.UPnP = rs.report.UPnP ∧
    (addNodeLatency rs e).report.PMP = rs.report.PMP ∧
    (addNodeLatency rs e).report.PCP = rs.report.PCP ∧
    (addNodeLatency rs e).incremental = rs.incremental ∧
    (addNodeLatency rs e).report.UDP = true := by
  unfold addNodeLatency
  cases e.fam <;> dsimp only <;> (repeat' split) <;>
    exact ⟨rfl, rfl, rfl, rfl, rfl, rfl⟩

theorem addNodeLatency_IPv4 (rs : ReportState) (e : StunEvent) :
    (addNodeLatency rs e).report.IPv4 = (rs.report.IPv4 || e.fam == IPFamily.v4) := by
  unfold addNodeLatency
  cases e.fam <;> dsimp only <;> (repeat' split) <;> simp

theorem addNodeLatency_IPv6 (rs : ReportState) (e : StunEvent) :
    (addNodeLatency rs e).report.IPv6 = (rs.report.IPv6 || e.fam == IPFamily.v6) := by
  unfold addNodeLatency
  cases e.fam <;> dsimp only <;> (repeat' split) <;> simp

theorem addHttpsLatency_preserved (rs : ReportState) (h : HttpsEvent) :
    (addHttpsLatency rs h).report.HairPinning = rs.report.HairPinning ∧
    (addHttpsLatency rs h).report.UPnP = rs.report.UPnP ∧
    (addHttpsLatency rs h).report.PMP = rs.report.PMP ∧
    (addHttpsLatency rs h).report.PCP = rs.report.PCP ∧
    (addHttpsLatency rs h).incremental = rs.incremental ∧
    (addHttpsLatency rs h).report.UDP = rs.report.UDP ∧
    (addHttpsLatency rs h).report.MappingVariesByDestIP = rs.report.MappingVariesByDestIP ∧
    (addHttpsLatency rs h).report.RegionV4Latency = rs.report.RegionV4Latency ∧
    (addHttpsLatency rs h).report.RegionV6Latency = rs.report.RegionV6Latency ∧
    (addHttpsLatency rs h).gotEP4 = rs.gotEP4 := by
  exact ⟨rfl, rfl, rfl, rfl, rfl, rfl, rfl, rfl, rfl, rfl⟩

theorem addHttpsLatency_IPv4 (rs : ReportState) (h : HttpsEvent) :
    (addHttpsLatency rs h).report.IPv4 = (rs.report.IPv4 || h.is4) := by
  unfold addHttpsLatency
  by_cases hb : rs.report.IPv4 <;> by_cases h4 : h.is4 <;> simp [hb, h4]

theorem addHttpsLatency_IPv6 (rs : ReportState) (h : HttpsEvent) :
    (addHttpsLatency rs h).report.IPv6 = (rs.report.IPv6 || !h.is4) := by
  unfold addHttpsLatency
  by_cases hb : rs.report.IPv6 <;> by_cases h4 : h.is4 <;> simp [hb, h4]

theorem waitHairCheck_preserved (last : Option Report) (out : HairOutcome)
    (rs : ReportState) :
    (waitHairCheck last out rs).report.UDP = rs.report.UDP ∧
    (waitHairCheck last out rs).report.IPv4 = rs.report.IPv4 ∧
    (waitHairCheck last out rs).report.IPv6 = rs.report.IPv6 ∧
    (waitHairCheck last out rs).report.UPnP = rs.report.UPnP ∧
    (waitHairCheck last out rs).report.PMP = rs.report.PMP ∧
    (waitHairCheck last out rs).report.PCP = rs.report.PCP ∧
    (waitHairCheck last out rs).report.MappingVariesByDestIP =
      rs.report.MappingVariesByDestIP ∧
    (waitHairCheck last out rs).report.RegionLatency = rs.report.RegionLatency ∧
    (waitHairCheck last out rs).report.RegionV4Latency = rs.report.RegionV4Latency ∧
    (waitHairCheck last out rs).report.RegionV6Latency = rs.report.RegionV6Latency ∧
    (waitHairCheck last out rs).gotEP4 = rs.gotEP4 ∧
    (waitHairCheck last out rs).incremental = rs.incremental ∧
    (waitHairCheck last out rs).sentHairCheck = rs.sentHairCheck := by
  unfold waitHairCheck
  (repeat' split) <;>
    exact ⟨rfl, rfl, rfl, rfl, rfl, rfl, rfl, rfl, rfl, rfl, rfl, rfl, rfl⟩

theorem probePortMapServices_preserved (outcome : Option Portmapper.ProbeResult)
    (rs : ReportState) :
    (probePortMapServices outcome rs).report.UDP = rs.report.UDP ∧
    (probePortMapServices outcome rs).report.IPv4 = rs.report.IPv4 ∧
    (probePortMapServices outcome rs).report.IPv6 = rs.report.IPv6 ∧
    (probePortMapServices outcome rs).report.HairPinning = rs.report.HairPinning ∧
    (probePortMapServices outcome rs).report.MappingVariesByDestIP =
      rs.report.MappingVariesByDestIP ∧
    (probePortMapServices outcome rs).report.RegionLatency = rs.report.RegionLatency ∧
    (probePortMapServices outcome rs).report.RegionV4Latency =
      rs.report.RegionV4Latency ∧
    (probePortMapServices outcome rs).report.RegionV6Latency =
      rs.report.RegionV6Latency ∧
    (probePortMapServices outcome rs).gotEP4 = rs.gotEP4 ∧
    (probePortMapServices outcome rs).incremental = rs.incremental ∧
    (probePortMapServices outcome rs).sentHairCheck = rs.sentHairCheck := by
  unfold probePortMapServices
  cases outcome <;>
    exact ⟨rfl, rfl, rfl, rfl, rfl, rfl, rfl, rfl, rfl, rfl, rfl⟩

theorem probePortMapServices_decided (outcome : Option Portmapper.ProbeResult)
    (rs : ReportState) :
    (probePortMapServices outcome rs).report.UPnP ≠ .unset ∧
    (probePortMapServices outcome rs).report.PMP ≠ .unset ∧
    (probePortMapServices outcome rs).report.PCP ≠ .unset ∧
    (outcome = none →
      (probePortMapServices outcome rs).report.UPnP = .set false ∧
      (probePortMapServices outcome rs).report.PMP = .set false ∧
      (probePortMapServices outcome rs).report.PCP = .set false) := by
  unfold probePortMapServices
  cases outcome <;> simp

theorem applyPhase2Event_portmap_fields (rs : ReportState) (e : Phase2Event) :
    (applyPhase2Event rs e).report.UPnP = rs.report.UPnP ∧
    (applyPhase2Event rs e).report.PMP = rs.report.PMP ∧
    (applyPhase2Event rs e).report.PCP = rs.report.PCP ∧
    (applyPhase2Event rs e).report.HairPinning = rs.report.HairPinning := by
  cases e with
  | stun s =>
    have h := addNodeLatency_preserved rs s
    exact ⟨h.2.1, h.2.2.1, h.2.2.2.1, h.1⟩
  | https h => exact ⟨rfl, rfl, rfl, rfl⟩

theorem foldl_phase2_portmap_fields (l : List Phase2Event) (rs : ReportState) :
    (l.foldl applyPhase2Event rs).report.UPnP = rs.report.UPnP ∧
    (l.foldl applyPhase2Event rs).report.PMP = rs.report.PMP ∧
    (l.foldl applyPhase2Event rs).report.PCP = rs.report.PCP ∧
    (l.foldl applyPhase2Event rs).report.HairPinning = rs.report.HairPinning := by
  induction l generalizing rs with
  | nil => exact ⟨rfl, rfl, rfl, rfl⟩
  | cons e t ih =>
    have h1 := applyPhase2Event_portmap_fields rs e
    have h2 := ih (applyPhase2Event rs e)
    exact ⟨h1.1 ▸ h2.1, h1.2.1 ▸ h2.2.1, h1.2.2.1 ▸ h2.2.2.1, h1.2.2.2 ▸ h2.2.2.2⟩

theorem foldl_addNodeLatency_UDP (l : List StunEvent) (rs : ReportState) :
    (l.foldl addNodeLatency rs).report.UDP = (rs.report.UDP || !l.isEmpty) := by
  induction l generalizing rs with
  | nil => simp
  | cons e t ih =>
    rw [List.foldl_cons, ih]
    simp [(addNodeLatency_preserved rs e).2.2.2.2.2]

theorem foldl_addNodeLatency_IPv4 (l : List StunEvent) (rs : ReportState) :
    (l.foldl addNodeLatency rs).report.IPv4 =
      (rs.report.IPv4 || l.any (fun e => e.fam == IPFamily.v4)) := by
  induction l generalizing rs with
  | nil => simp
  | cons e t ih =>
    rw [List.foldl_cons, ih, addNodeLatency_IPv4]
    simp [Bool.or_assoc]

theorem foldl_addNodeLatency_IPv6 (l : List StunEvent) (rs : ReportState) :
    (l.foldl addNodeLatency rs).report.IPv6 =
      (rs.report.IPv6 || l.any (fun e => e.fam == IPFamily.v6)) := by
  induction l generalizing rs with
  | nil => simp
  | cons e t ih =>
    rw [List.foldl_cons, ih, addNodeLatency_IPv6]
    simp [Bool.or_assoc]

theorem foldl_phase2_UDP (l : List Phase2Event) (rs : ReportState) :
    (l.foldl applyPhase2Event rs).report.UDP =
      (rs.report.UDP || l.any isStunEvent) := by
  induction l generalizing rs with
  | nil => simp
  | cons e t ih =>
    rw [List.foldl_cons, ih]
    cases e with
    | stun s =>
      simp [applyPhase2Event, (addNodeLatency_preserved rs s).2.2.2.2.2, isStunEvent]
    | https h =>
      simp [applyPhase2Event, (addHttpsLatency_preserved rs h).2.2.2.2.2.1, isStunEvent,
            Bool.or_assoc]

theorem foldl_phase2_IPv4 (l : List Phase2Event) (rs : ReportState) :
    (l.foldl applyPhase2Event rs).report.IPv4 =
      (rs.report.IPv4 || l.any contributes4) := by
  induction l generalizing rs with
  | nil => simp
  | cons e t ih =>
    rw [List.foldl_cons, ih]
    cases e with
    | stun s => simp [applyPhase2Event, addNodeLatency_IPv4, contributes4, Bool.or_assoc]
    | https h => simp [applyPhase2Event, addHttpsLatency_IPv4, contributes4, Bool.or_assoc]

theorem foldl_phase2_IPv6 (l : List Phase2Event) (rs : ReportState) :
    (l.foldl applyPhase2Event rs).report.IPv6 =
      (rs.report.IPv6 || l.any contributes6) := by
  induction l generalizing rs with
  | nil => simp
  | cons e t ih =>
    rw [List.foldl_cons, ih]
    cases e with
    | stun s => simp [applyPhase2Event, addNodeLatency_IPv6, contributes6, Bool.or_assoc]
    | https h => simp [applyPhase2Event, addHttpsLatency_IPv6, contributes6, Bool.or_assoc]

theorem midState_UDP (run : RunInput) :
    (midState run).report.UDP = !run.phase1.isEmpty := by
  unfold midState
  by_cases hc : run.portMapperConfigured <;>
    simp [hc, (probePortMapServices_preserved _ _).1, (waitHairCheck_preserved _ _ _).1,
          foldl_addNodeLatency_UDP, newReport]

theorem midState_IPv4 (run : RunInput) :
    (midState run).report.IPv4 = run.phase1.any (fun e => e.fam == IPFamily.v4) := by
  unfold midState
  by_cases hc : run.portMapperConfigured <;>
    simp [hc, (probePortMapServices_preserved _ _).2.1,
          (waitHairCheck_preserved _ _ _).2.1, foldl_addNodeLatency_IPv4, newReport]

theorem midState_IPv6 (run : RunInput) :
    (midState run).report.IPv6 = run.phase1.any (fun e => e.fam == IPFamily.v6) := by
  unfold midState
  by_cases hc : run.portMapperConfigured <;>
    simp [hc, (probePortMapServices_preserved _ _).2.2.1,
          (waitHairCheck_preserved _ _ _).2.2.1, foldl_addNodeLatency_IPv6, newReport]

theorem foldl_addNodeLatency_HairPinning (l : List StunEvent) (rs : ReportState) :
    (l.foldl addNodeLatency rs).report.HairPinning = rs.report.HairPinning := by
  induction l generalizing rs with
  | nil => rfl
  | cons e t ih =>
    rw [List.foldl_cons, ih, (addNodeLatency_preserved rs e).1]

theorem foldl_addNodeLatency_incremental (l : List StunEvent) (rs : ReportState) :
    (l.foldl addNodeLatency rs).incremental = rs.incremental := by
  induction l generalizing rs with
  | nil => rfl
  | cons e t ih =>
    rw [List.foldl_cons, ih, (addNodeLatency_preserved rs e).2.2.2.2.1]

theorem addNodeLatency_sent_mono (rs : ReportState) (e : StunEvent)
    (h : rs.sentHairCheck = true) :
    (addNodeLatency rs e).sentHairCheck = true := by
  unfold addNodeLatency
  cases e.fam <;> dsimp only <;> (repeat' split) <;> simp [h]

theorem foldl_addNodeLatency_sent_mono (l : List StunEvent) (rs : ReportState)
    (h : rs.sentHairCheck = true) :
    (l.foldl addNodeLatency rs).sentHairCheck = true := by
  induction l generalizing rs with
  | nil => exact h
  | cons e t ih =>
    rw [List.foldl_cons]
    exact ih _ (addNodeLatency_sent_mono rs e h)

theorem addNodeLatency_nonv4 (rs : ReportState) (e : StunEvent)
    (h : e.fam ≠ IPFamily.v4) :
    (addNodeLatency rs e).gotEP4 = rs.gotEP4 ∧
    (addNodeLatency rs e).sentHairCheck = rs.sentHairCheck := by
  unfold addNodeLatency
  cases hf : e.fam <;> dsimp only <;> first
    | exact ⟨rfl, rfl⟩
    | exact absurd hf h

theorem addNodeLatency_first_v4 (rs : ReportState) (e : StunEvent)
    (hg : rs.gotEP4 = "") (hi : rs.incremental = false)
    (hf : e.fam = IPFamily.v4) :
    (addNodeLatency rs e).sentHairCheck = true := by
  unfold addNodeLatency
  rw [hf]
  dsimp only
  rw [if_pos hg]
  simp [hi]

/-- From a state that has not yet seen an IPv4 endpoint, a non-incremental
run sets `sentHairCheck` as soon as some IPv4 STUN response is processed. -/
theorem foldl_addNodeLatency_sent_of_v4 (l : List StunEvent) (rs : ReportState)
    (hg : rs.gotEP4 = "") (hi : rs.incremental = false)
    (hv : ∃ e ∈ l, e.fam = IPFamily.v4) :
    (l.foldl addNodeLatency rs).sentHairCheck = true := by
  induction l generalizing rs with
  | nil => exact absurd hv (by simp)
  | cons e t ih =>
    rw [List.foldl_cons]
    by_cases hf : e.fam = IPFamily.v4
    · exact foldl_addNodeLatency_sent_mono t _ (addNodeLatency_first_v4 rs e hg hi hf)
    · obtain ⟨e', he', hfe'⟩ := hv
      rcases List.mem_cons.mp he' with rfl | hmem
      · exact absurd hfe' hf
      · have hp := addNodeLatency_nonv4 rs e hf
        exact ih _ (hp.1.trans hg)
          (((addNodeLatency_preserved rs e).2.2.2.2.1).trans hi) ⟨e', hmem, hfe'⟩

/-- C1 counterexample: on the HTTPS-fallback path the claim fails. In the
realisable run `c1Run` (UDP fully blocked, one successful HTTPS fallback
measurement over IPv4) the returned report has `UDP = false` but
`IPv4 = true`, because `GetReport`'s fallback sets the family flags from
the TLS connection without touching `UDP` (netcheck.go lines 1067-1072). -/
theorem C1_counterexample :
    validRun c1Run = true ∧
    (runGetReport c1Run).UDP = false ∧
    (runGetReport c1Run).IPv4 = true := by decide

/-- C1 (amended): in every run of GetReport with `UDP = false` in the
returned report, the `IPv4` and `IPv6` fields are false unless they were
set by a successful HTTPS-fallback measurement of the corresponding
family; in particular when no HTTPS fallback measurement succeeded they
are both false. -/
theorem C1_amended_udp_families (run : RunInput)
    (hUDP : (runGetReport run).UDP = false) :
    ((runGetReport run).IPv4 = true → ∃ h ∈ httpsEvents run, h.is4 = true) ∧
    ((runGetReport run).IPv6 = true → ∃ h ∈ httpsEvents run, h.is4 = false) ∧
    (httpsEvents run = [] →
      (runGetReport run).IPv4 = false ∧ (runGetReport run).IPv6 = false) := by
  have hU : ((midState run).report.UDP || run.phase2.any isStunEvent) = false := by
    have := foldl_phase2_UDP run.phase2 (midState run)
    unfold runGetReport at hUDP
    rw [this] at hUDP
    exact hUDP
  rw [Bool.or_eq_false_iff] at hU
  have hempty : run.phase1.isEmpty = true := by
    have := midState_UDP run
    rw [hU.1] at this
    simpa using this.symm
  have hnostun : run.phase2.any isStunEvent = false := hU.2
  have h4eq : (runGetReport run).IPv4 = run.phase2.any contributes4 := by
    unfold runGetReport
    rw [foldl_phase2_IPv4, midState_IPv4]
    rw [List.isEmpty_iff] at hempty
    simp [hempty]
  have h6eq : (runGetReport run).IPv6 = run.phase2.any contributes6 := by
    unfold runGetReport
    rw [foldl_phase2_IPv6, midState_IPv6]
    rw [List.isEmpty_iff] at hempty
    simp [hempty]
  refine ⟨?_, ?_, ?_⟩
  · intro h4
    rw [h4eq, List.any_eq_true] at h4
    obtain ⟨e, he, hc4⟩ := h4
    cases e with
    | stun s =>
      exfalso
      have : run.phase2.any isStunEvent = true :=
        List.any_eq_true.mpr ⟨.stun s, he, rfl⟩
      rw [this] at hnostun
      exact Bool.true_eq_false.mp hnostun
    | https h =>
      refine ⟨h, ?_, hc4⟩
      unfold httpsEvents
      exact List.mem_filterMap.mpr ⟨.https h, he, rfl⟩
  · intro h6
    rw [h6eq, List.any_eq_true] at h6
    obtain ⟨e, he, hc6⟩ := h6
    cases e with
    | stun s =>
      exfalso
      have : run.phase2.any isStunEvent = true :=
        List.any_eq_true.mpr ⟨.stun s, he, rfl⟩
      rw [this] at hnostun
      exact Bool.true_eq_false.mp hnostun
    | https h =>
      refine ⟨h, ?_, ?_⟩
      · unfold httpsEvents
        exact List.mem_filterMap.mpr ⟨.https h, he, rfl⟩
      · simpa [contributes6] using hc6
  · intro hhe
    constructor
    · rw [h4eq]
      rw [Bool.eq_false_iff]
      intro hany
      rw [List.any_eq_true] at hany
      obtain ⟨e, he, hc4⟩ := hany
      cases e with
      | stun s =>
        have : run.phase2.any isStunEvent = true :=
          List.any_eq_true.mpr ⟨.stun s, he, rfl⟩
        rw [this] at hnostun
        exact Bool.true_eq_false.mp hnostun
      | https h =>
        have : h ∈ httpsEvents run := by
          unfold httpsEvents
          exact List.mem_filterMap.mpr ⟨.https h, he, rfl⟩
        rw [hhe] at this
        exact (List.not_mem_nil h) this
    · rw [h6eq]
      rw [Bool.eq_false_iff]
      intro hany
      rw [List.any_eq_true] at hany
      obtain ⟨e, he, hc6⟩ := hany
      cases e with
      | stun s =>
        have : run.phase2.any isStunEvent = true :=
          List.any_eq_true.mpr ⟨.stun s, he, rfl⟩
        rw [this] at hnostun
        exact Bool.true_eq_false.mp hnostun
      | https h =>
        have : h ∈ httpsEvents run := by
          unfold httpsEvents
          exact List.mem_filterMap.mpr ⟨.https h, he, rfl⟩
        rw [hhe] at this
        exact (List.not_mem_nil h) this

/-- C1 witness: the amended theorem applied to the concrete run with no
events at all: UDP is false and both family flags are false. -/
theorem C1_witness :
    (runGetReport emptyRun).UDP = false ∧
    (runGetReport emptyRun).IPv4 = false ∧
    (runGetReport emptyRun).IPv6 = false :=
  ⟨by decide,
   (C1_amended_udp_families emptyRun (by decide)).2.2 (by decide)⟩

/-- C10: whenever GetReport runs with a port mapper configured (and
external probing enabled), the returned report's UPnP, PMP and PCP fields
are decided — `probePortMapServices` sets all three to false before the
probe, so even a probe error (`portmapOutcome = none`) leaves them false
rather than unknown. -/
theorem C10_portmap_fields_decided (run : RunInput)
    (hc : run.portMapperConfigured = true) :
    (runGetReport run).UPnP ≠ .unset ∧
    (runGetReport run).PMP ≠ .unset ∧
    (runGetReport run).PCP ≠ .unset ∧
    (run.portmapOutcome = none →
      (runGetReport run).UPnP = .set false ∧
      (runGetReport run).PMP = .set false ∧
      (runGetReport run).PCP = .set false) := by
  have hf := foldl_phase2_portmap_fields run.phase2 (midState run)
  have hmid : midState run =
      probePortMapServices run.portmapOutcome
        (waitHairCheck run.lastReport run.hairOutcome
          (run.phase1.foldl addNodeLatency { incremental := run.incremental })) := by
    unfold midState
    rw [hc]
    simp
  have hd := probePortMapServices_decided run.portmapOutcome
    (waitHairCheck run.lastReport run.hairOutcome
      (run.phase1.foldl addNodeLatency { incremental := run.incremental }))
  unfold runGetReport
  rw [hf.1, hf.2.1, hf.2.2.1, hmid]
  exact ⟨hd.1, hd.2.1, hd.2.2.1, hd.2.2.2⟩

/-- C10 witness: the theorem applied to a run whose port-map probe fails:
all three fields come back `set false`, none is left unknown. -/
theorem C10_witness :
    (runGetReport c10Run).UPnP = .set false ∧
    (runGetReport c10Run).PMP = .set false ∧
    (runGetReport c10Run).PCP = .set false :=
  (C10_portmap_fields_decided c10Run rfl).2.2.2 rfl

theorem mapGet_mapSet_self (m : List (Nat × Nat)) (k v : Nat) :
    mapGet (mapSet m k v) k = some v := by
  induction m with
  | nil => simp [mapSet, mapGet]
  | cons p t ih =>
    by_cases hp : p.1 = k <;> simp [mapSet, mapGet, hp, ih]

theorem mapGet_mapSet_ne (m : List (Nat × Nat)) (k v k' : Nat) (h : k' ≠ k) :
    mapGet (mapSet m k v) k' = mapGet m k' := by
  induction m with
  | nil => simp [mapSet, mapGet, Ne.symm h]
  | cons p t ih =>
    by_cases hp : p.1 = k
    · have hp' : ¬p.1 = k' := fun hc => h ((hc ▸ hp : k' = k))
      simp [mapSet, mapGet, hp, hp', Ne.symm h]
    · have hset : mapSet (p :: t) k v = p :: mapSet t k v := by
        simp [mapSet, hp]
      rw [hset]
      by_cases hp' : p.1 = k' <;> simp [mapGet, hp', ih]

theorem mapGet_updateLatency_self (m : List (Nat × Nat)) (k d : Nat) :
    mapGet (updateLatency m k d) k =
      some (match mapGet m k with
            | none => d
            | some p => if d < p then d else p) := by
  unfold updateLatency
  cases hm : mapGet m k with
  | none => simpa using mapGet_mapSet_self m k d
  | some p =>
    by_cases hd : d < p
    · simpa [hd] using mapGet_mapSet_self m k d
    · simpa [hd] using hm

theorem mapGet_updateLatency_ne (m : List (Nat × Nat)) (k d k' : Nat)
    (h : k' ≠ k) :
    mapGet (updateLatency m k d) k' = mapGet m k' := by
  unfold updateLatency
  cases hm : mapGet m k with
  | none => exact mapGet_mapSet_ne m k d k' h
  | some p =>
    by_cases hd : d < p
    · simpa [hd] using mapGet_mapSet_ne m k d k' h
    · simp [hd]

theorem mapGet_updateLatency_isSome (m : List (Nat × Nat)) (k d k' : Nat)
    (h : (mapGet m k').isSome = true) :
    (mapGet (updateLatency m k d) k').isSome = true := by
  by_cases hk : k' = k
  · subst hk
    rw [mapGet_updateLatency_self]
    rfl
  · rw [mapGet_updateLatency_ne m k d k' hk]
    exact h

theorem mapGet_updateLatency_le (m : List (Nat × Nat)) (k d k' w : Nat)
    (h : mapGet m k' = some w) :
    ∃ v, mapGet (updateLatency m k d) k' = some v ∧ v ≤ w := by
  by_cases hk : k' = k
  · subst hk
    rw [mapGet_updateLatency_self, h]
    by_cases hd : d < w
    · exact ⟨d, by simp [hd], Nat.le_of_lt hd⟩
    · exact ⟨w, by simp [hd], Nat.le_refl w⟩
  · exact ⟨w, (mapGet_updateLatency_ne m k d k' hk).trans h, Nat.le_refl w⟩

theorem mapGet_mapSet_isSome (m : List (Nat × Nat)) (k v k' : Nat)
    (h : (mapGet m k').isSome = true) :
    (mapGet (mapSet m k v) k').isSome = true := by
  by_cases hk : k' = k
  · subst hk
    rw [mapGet_mapSet_self]
    rfl
  · rw [mapGet_mapSet_ne m k v k' hk]
    exact h

theorem updateLatency_key_cases (m : List (Nat × Nat)) (j d k : Nat)
    (h : (mapGet (updateLatency m j d) k).isSome = true) :
    k = j ∨ (mapGet m k).isSome = true := by
  by_cases hk : k = j
  · exact Or.inl hk
  · rw [mapGet_updateLatency_ne m j d k hk] at h
    exact Or.inr h

/-- Folding the same sample into both maps preserves domination. -/
theorem updateLatency_dominates (rl fm : List (Nat × Nat)) (j d : Nat)
    (h : ∀ k fv, mapGet fm k = some fv →
      ∃ v, mapGet rl k = some v ∧ v ≤ fv) :
    ∀ k fv, mapGet (updateLatency fm j d) k = some fv →
      ∃ v, mapGet (updateLatency rl j d) k = some v ∧ v ≤ fv := by
  intro k fv hk
  by_cases hkj : k = j
  · subst hkj
    rw [mapGet_updateLatency_self] at hk
    rw [mapGet_updateLatency_self]
    cases hFM : mapGet fm k with
    | none =>
      rw [hFM] at hk
      have hfv : fv = d := (Option.some.inj hk).symm
      cases hRL : mapGet rl k with
      | none => exact ⟨d, rfl, hfv ▸ Nat.le_refl d⟩
      | some p =>
        refine ⟨if d < p then d else p, rfl, ?_⟩
        rw [hfv]
        split <;> omega
    | some q =>
      obtain ⟨v, hv, hvq⟩ := h k q hFM
      rw [hFM] at hk
      rw [hv]
      refine ⟨if d < v then d else v, rfl, ?_⟩
      have hfv : fv = if d < q then d else q := (Option.some.inj hk).symm
      rw [hfv]
      split <;> split <;> omega
  · rw [mapGet_updateLatency_ne fm j d k hkj] at hk
    obtain ⟨v, hv, hle⟩ := h k fv hk
    rw [mapGet_updateLatency_ne rl j d k hkj]
    exact ⟨v, hv, hle⟩

/-- Folding a sample into the region map alone preserves domination (its
values never increase). -/
theorem updateLatency_dominates_rl_only (rl fm : List (Nat × Nat)) (j d : Nat)
    (h : ∀ k fv, mapGet fm k = some fv →
      ∃ v, mapGet rl k = some v ∧ v ≤ fv) :
    ∀ k fv, mapGet fm k = some fv →
      ∃ v, mapGet (updateLatency rl j d) k = some v ∧ v ≤ fv := by
  intro k fv hk
  obtain ⟨v, hv, hle⟩ := h k fv hk
  obtain ⟨v', hv', hle'⟩ := mapGet_updateLatency_le rl j d k v hv
  exact ⟨v', hv', Nat.le_trans hle' hle⟩

/-- The three latency maps after `addNodeLatency`: the region map always
folds in the new sample; each family map folds it in only for its own
family. -/
theorem addNodeLatency_latmaps (rs : ReportState) (e : StunEvent) :
    (addNodeLatency rs e).report.RegionLatency =
      updateLatency rs.report.RegionLatency e.regionID e.d ∧
    (addNodeLatency rs e).report.RegionV4Latency =
      (if e.fam = IPFamily.v4 then
        updateLatency rs.report.RegionV4Latency e.regionID e.d
      else rs.report.RegionV4Latency) ∧
    (addNodeLatency rs e).report.RegionV6Latency =
      (if e.fam = IPFamily.v6 then
        updateLatency rs.report.RegionV6Latency e.regionID e.d
      else rs.report.RegionV6Latency) := by
  unfold addNodeLatency
  cases e.fam with
  | v6 =>
    refine ⟨rfl, ?_, ?_⟩
    · rw [if_neg (by decide)]
    · rw [if_pos rfl]
  | v4 =>
    dsimp only
    refine ⟨?_, ?_, ?_⟩
    · (repeat' split) <;> rfl
    · rw [if_pos rfl]
      (repeat' split) <;> rfl
    · rw [if_neg (show ¬(IPFamily.v4 = IPFamily.v6) by decide)]
      (repeat' split) <;> rfl
  | none =>
    refine ⟨rfl, ?_, ?_⟩
    · rw [if_neg (by decide)]
    · rw [if_neg (by decide)]

/-- One STUN response preserves the family-versus-region map invariant,
extending the event pool by itself. -/
theorem addNodeLatency_latencyDominated (rs : ReportState) (e : StunEvent)
    (seen : List StunEvent) (h : latencyDominated rs seen) :
    latencyDominated (addNodeLatency rs e) (seen ++ [e]) := by
  obtain ⟨hrl, h4, h6⟩ := addNodeLatency_latmaps rs e
  have hext : ∀ k, (∃ x ∈ seen, x.regionID = k) →
      ∃ x ∈ seen ++ [e], x.regionID = k := by
    intro k ⟨x, hx, hk⟩
    exact ⟨x, List.mem_append_left _ hx, hk⟩
  have hself : e ∈ seen ++ [e] :=
    List.mem_append_right _ (List.mem_singleton_self e)
  have hpool : ∀ (fm : List (Nat × Nat)),
      (∀ k fv, mapGet fm k = some fv → ∃ x ∈ seen, x.regionID = k) →
      ∀ k fv, mapGet (updateLatency fm e.regionID e.d) k = some fv →
        ∃ x ∈ seen ++ [e], x.regionID = k := by
    intro fm hp k fv hk
    rcases updateLatency_key_cases fm e.regionID e.d k
      (by rw [hk]; rfl) with hkj | hsome
    · exact ⟨e, hself, hkj.symm⟩
    · obtain ⟨w, hw⟩ := Option.isSome_iff_exists.mp hsome
      exact hext k (hp k w hw)
  constructor
  · intro k fv hk
    rw [h4] at hk
    rw [hrl]
    by_cases hf : e.fam = IPFamily.v4
    · rw [if_pos hf] at hk
      refine ⟨updateLatency_dominates _ _ _ _
        (fun k' fv' h' => (h.1 k' fv' h').1) k fv hk, ?_⟩
      exact hpool rs.report.RegionV4Latency
        (fun k' fv' h' => (h.1 k' fv' h').2) k fv hk
    · rw [if_neg hf] at hk
      exact ⟨updateLatency_dominates_rl_only _ _ _ _
        (fun k' fv' h' => (h.1 k' fv' h').1) k fv hk,
        hext k (h.1 k fv hk).2⟩
  · intro k fv hk
    rw [h6] at hk
    rw [hrl]
    by_cases hf : e.fam = IPFamily.v6
    · rw [if_pos hf] at hk
      refine ⟨updateLatency_dominates _ _ _ _
        (fun k' fv' h' => (h.2 k' fv' h').1) k fv hk, ?_⟩
      exact hpool rs.report.RegionV6Latency
        (fun k' fv' h' => (h.2 k' fv' h').2) k fv hk
    · rw [if_neg hf] at hk
      exact ⟨updateLatency_dominates_rl_only _ _ _ _
        (fun k' fv' h' => (h.2 k' fv' h').1) k fv hk,
        hext k (h.2 k fv hk).2⟩

/-- An HTTPS write for a region disjoint from every pooled STUN event
preserves the invariant. -/
theorem addHttpsLatency_latencyDominated (rs : ReportState) (hev : HttpsEvent)
    (seen : List StunEvent) (h : latencyDominated rs seen)
    (hdisj : ∀ s ∈ seen, hev.regionID ≠ s.regionID) :
    latencyDominated (addHttpsLatency rs hev) seen := by
  have hrl : (addHttpsLatency rs hev).report.RegionLatency =
      mapSet rs.report.RegionLatency hev.regionID hev.d := rfl
  have h4 : (addHttpsLatency rs hev).report.RegionV4Latency =
      rs.report.RegionV4Latency := rfl
  have h6 : (addHttpsLatency rs hev).report.RegionV6Latency =
      rs.report.RegionV6Latency := rfl
  constructor
  · intro k fv hk
    rw [h4] at hk
    obtain ⟨⟨v, hv, hle⟩, hp⟩ := h.1 k fv hk
    obtain ⟨x, hx, hxk⟩ := hp
    have hkne : k ≠ hev.regionID := fun hc =>
      hdisj x hx (hc ▸ hxk.symm ▸ rfl)
    rw [hrl, mapGet_mapSet_ne _ _ _ _ hkne]
    exact ⟨⟨v, hv, hle⟩, ⟨x, hx, hxk⟩⟩
  · intro k fv hk
    rw [h6] at hk
    obtain ⟨⟨v, hv, hle⟩, hp⟩ := h.2 k fv hk
    obtain ⟨x, hx, hxk⟩ := hp
    have hkne : k ≠ hev.regionID := fun hc =>
      hdisj x hx (hc ▸ hxk.symm ▸ rfl)
    rw [hrl, mapGet_mapSet_ne _ _ _ _ hkne]
    exact ⟨⟨v, hv, hle⟩, ⟨x, hx, hxk⟩⟩

theorem foldl_addNodeLatency_latencyDominated (l : List StunEvent)
    (seen : List StunEvent) (rs : ReportState)
    (h : latencyDominated rs seen) :
    latencyDominated (l.foldl addNodeLatency rs) (seen ++ l) := by
  induction l generalizing rs seen with
  | nil => simpa using h
  | cons e t ih =>
    rw [List.foldl_cons]
    have := ih (seen ++ [e]) (addNodeLatency rs e)
      (addNodeLatency_latencyDominated rs e seen h)
    simpa [List.append_assoc] using this

theorem foldl_phase2_latencyDominated (l : List Phase2Event)
    (seen : List StunEvent) (rs : ReportState)
    (h : latencyDominated rs seen)
    (hdisj : ∀ hev, Phase2Event.https hev ∈ l →
      ∀ s, s ∈ seen ++ l.filterMap (fun e =>
        match e with
        | .stun s' => some s'
        | .https _ => none) → hev.regionID ≠ s.regionID) :
    latencyDominated (l.foldl applyPhase2Event rs)
      (seen ++ l.filterMap (fun e =>
        match e with
        | .stun s' => some s'
        | .https _ => none)) := by
  induction l generalizing rs seen with
  | nil => simpa using h
  | cons e t ih =>
    rw [List.foldl_cons]
    cases e with
    | stun s =>
      have step := addNodeLatency_latencyDominated rs s seen h
      have hd' : ∀ hev, Phase2Event.https hev ∈ t →
          ∀ x, x ∈ (seen ++ [s]) ++ t.filterMap (fun e =>
            match e with
            | .stun s' => some s'
            | .https _ => none) → hev.regionID ≠ x.regionID := by
        intro hev hm x hx
        refine hdisj hev (List.mem_cons_of_mem _ hm) x ?_
        simpa [List.append_assoc] using hx
      have := ih (seen ++ [s]) (addNodeLatency rs s) step hd'
      simpa [List.append_assoc] using this
    | https hev =>
      have hds : ∀ s ∈ seen, hev.regionID ≠ s.regionID := by
        intro s hs
        exact hdisj hev (List.mem_cons_self _ _) s (List.mem_append_left _ hs)
      have step := addHttpsLatency_latencyDominated rs hev seen h hds
      have hd' : ∀ hev', Phase2Event.https hev' ∈ t →
          ∀ x, x ∈ seen ++ t.filterMap (fun e =>
            match e with
            | .stun s' => some s'
            | .https _ => none) → hev'.regionID ≠ x.regionID := by
        intro hev' hm x hx
        refine hdisj hev' (List.mem_cons_of_mem _ hm) x ?_
        simpa using hx
      have := ih seen (addHttpsLatency rs hev) step hd'
      simpa using this

/-- One STUN response preserves containment of the family keys in the
region map. -/
theorem addNodeLatency_contain (rs : ReportState) (e : StunEvent)
    (h : ∀ k, ((mapGet rs.report.RegionV4Latency k).isSome = true ∨
               (mapGet rs.report.RegionV6Latency k).isSome = true) →
      (mapGet rs.report.RegionLatency k).isSome = true) :
    ∀ k, ((mapGet (addNodeLatency rs e).report.RegionV4Latency k).isSome = true ∨
          (mapGet (addNodeLatency rs e).report.RegionV6Latency k).isSome = true) →
      (mapGet (addNodeLatency rs e).report.RegionLatency k).isSome = true := by
  obtain ⟨hrl, h4, h6⟩ := addNodeLatency_latmaps rs e
  intro k hk
  rw [hrl]
  by_cases hkj : k = e.regionID
  · subst hkj
    rw [mapGet_updateLatency_self]
    rfl
  · rw [mapGet_updateLatency_ne _ _ _ _ hkj]
    apply h
    rcases hk with h4' | h6'
    · left
      rw [h4] at h4'
      by_cases hf : e.fam = IPFamily.v4
      · rw [if_pos hf, mapGet_updateLatency_ne _ _ _ _ hkj] at h4'
        exact h4'
      · rw [if_neg hf] at h4'
        exact h4'
    · right
      rw [h6] at h6'
      by_cases hf : e.fam = IPFamily.v6
      · rw [if_pos hf, mapGet_updateLatency_ne _ _ _ _ hkj] at h6'
        exact h6'
      · rw [if_neg hf] at h6'
        exact h6'

/-- An HTTPS write only grows the region map, so containment persists. -/
theorem addHttpsLatency_contain (rs : ReportState) (hev : HttpsEvent)
    (h : ∀ k, ((mapGet rs.report.RegionV4Latency k).isSome = true ∨
               (mapGet rs.report.RegionV6Latency k).isSome = true) →
      (mapGet rs.report.RegionLatency k).isSome = true) :
    ∀ k, ((mapGet (addHttpsLatency rs hev).report.RegionV4Latency k).isSome = true ∨
          (mapGet (addHttpsLatency rs hev).report.RegionV6Latency k).isSome = true) →
      (mapGet (addHttpsLatency rs hev).report.RegionLatency k).isSome = true := by
  intro k hk
  exact mapGet_mapSet_isSome _ _ _ _ (h k hk)

theorem foldl_phase2_contain (l : List Phase2Event) (rs : ReportState)
    (h : ∀ k, ((mapGet rs.report.RegionV4Latency k).isSome = true ∨
               (mapGet rs.report.RegionV6Latency k).isSome = true) →
      (mapGet rs.report.RegionLatency k).isSome = true) :
    ∀ k, ((mapGet (l.foldl applyPhase2Event rs).report.RegionV4Latency k).isSome = true ∨
          (mapGet (l.foldl applyPhase2Event rs).report.RegionV6Latency k).isSome = true) →
      (mapGet (l.foldl applyPhase2Event rs).report.RegionLatency k).isSome = true := by
  induction l generalizing rs with
  | nil => exact h
  | cons e t ih =>
    rw [List.foldl_cons]
    cases e with
    | stun s => exact ih _ (addNodeLatency_contain rs s h)
    | https hev => exact ih _ (addHttpsLatency_contain rs hev h)

theorem foldl_addNodeLatency_contain (l : List StunEvent) (rs : ReportState)
    (h : ∀ k, ((mapGet rs.report.RegionV4Latency k).isSome = true ∨
               (mapGet rs.report.RegionV6Latency k).isSome = true) →
      (mapGet rs.report.RegionLatency k).isSome = true) :
    ∀ k, ((mapGet (l.foldl addNodeLatency rs).report.RegionV4Latency k).isSome = true ∨
          (mapGet (l.foldl addNodeLatency rs).report.RegionV6Latency k).isSome = true) →
      (mapGet (l.foldl addNodeLatency rs).report.RegionLatency k).isSome = true := by
  induction l generalizing rs with
  | nil => exact h
  | cons e t ih =>
    rw [List.foldl_cons]
    exact ih _ (addNodeLatency_contain rs e h)

/-- The three latency maps of the state at the HTTPS `need` computation
are those accumulated by the phase-1 STUN responses. -/
theorem midState_maps (run : RunInput) :
    (midState run).report.RegionLatency =
      (run.phase1.foldl addNodeLatency
        ({ incremental := run.incremental } : ReportState)).report.RegionLatency ∧
    (midState run).report.RegionV4Latency =
      (run.phase1.foldl addNodeLatency
        ({ incremental := run.incremental } : ReportState)).report.RegionV4Latency ∧
    (midState run).report.RegionV6Latency =
      (run.phase1.foldl addNodeLatency
        ({ incremental := run.incremental } : ReportState)).report.RegionV6Latency := by
  unfold midState
  by_cases hc : run.portMapperConfigured <;>
    simp [hc, (probePortMapServices_preserved _ _).2.2.2.2.2.1,
          (probePortMapServices_preserved _ _).2.2.2.2.2.2.1,
          (probePortMapServices_preserved _ _).2.2.2.2.2.2.2.1,
          (waitHairCheck_preserved _ _ _).2.2.2.2.2.2.2.1,
          (waitHairCheck_preserved _ _ _).2.2.2.2.2.2.2.2.1,
          (waitHairCheck_preserved _ _ _).2.2.2.2.2.2.2.2.2.1]

theorem addNodeLatency_mvbd_step (rs : ReportState) (e : StunEvent)
    (seen : List StunEvent)
    (hg : rs.gotEP4 = "" ∨ ∃ e0 ∈ seen, e0.fam = IPFamily.v4 ∧
          e0.ipPortStr = rs.gotEP4)
    (hm : rs.report.MappingVariesByDestIP = .set true →
      ∃ e1 ∈ seen, ∃ e2 ∈ seen, e1.fam = IPFamily.v4 ∧ e2.fam = IPFamily.v4 ∧
        e1.ipPortStr ≠ e2.ipPortStr) :
    ((addNodeLatency rs e).gotEP4 = "" ∨ ∃ e0 ∈ seen ++ [e],
      e0.fam = IPFamily.v4 ∧ e0.ipPortStr = (addNodeLatency rs e).gotEP4) ∧
    ((addNodeLatency rs e).report.MappingVariesByDestIP = .set true →
      ∃ e1 ∈ seen ++ [e], ∃ e2 ∈ seen ++ [e], e1.fam = IPFamily.v4 ∧
        e2.fam = IPFamily.v4 ∧ e1.ipPortStr ≠ e2.ipPortStr) := by
  have hext : ∀ x ∈ seen, x ∈ seen ++ [e] := fun x hx => List.mem_append_left _ hx
  have hself : e ∈ seen ++ [e] := List.mem_append_right _ (List.mem_singleton_self e)
  have hgx : rs.gotEP4 = "" ∨ ∃ e0 ∈ seen ++ [e], e0.fam = IPFamily.v4 ∧
      e0.ipPortStr = rs.gotEP4 := by
    rcases hg with h | ⟨e0, he0, hf0, hs0⟩
    · exact Or.inl h
    · exact Or.inr ⟨e0, hext e0 he0, hf0, hs0⟩
  have hmx : rs.report.MappingVariesByDestIP = .set true →
      ∃ e1 ∈ seen ++ [e], ∃ e2 ∈ seen ++ [e], e1.fam = IPFamily.v4 ∧
        e2.fam = IPFamily.v4 ∧ e1.ipPortStr ≠ e2.ipPortStr := by
    intro h
    obtain ⟨e1, h1, e2, h2, hx⟩ := hm h
    exact ⟨e1, hext e1 h1, e2, hext e2 h2, hx⟩
  unfold addNodeLatency
  cases hf : e.fam with
  | v6 => exact ⟨hgx, hmx⟩
  | none => exact ⟨hgx, hmx⟩
  | v4 =>
    dsimp only
    by_cases h1 : rs.gotEP4 = ""
    · rw [if_pos h1]
      refine ⟨Or.inr ⟨e, hself, hf, rfl⟩, hmx⟩
    · rw [if_neg h1]
      by_cases h2 : rs.gotEP4 ≠ e.ipPortStr
      · rw [if_pos h2]
        refine ⟨hgx, fun _ => ?_⟩
        rcases hg with h | ⟨e0, he0, hf0, hs0⟩
        · exact absurd h h1
        · exact ⟨e0, hext e0 he0, e, hself, hf0, hf, fun hc => h2 (hs0 ▸ hc ▸ rfl)⟩
      · rw [if_neg h2]
        by_cases h3 : rs.report.MappingVariesByDestIP = .unset
        · rw [if_pos h3]
          refine ⟨hgx, fun hc => ?_⟩
          exact absurd hc (by simp)
        · rw [if_neg h3]
          exact ⟨hgx, hmx⟩

theorem foldl_addNodeLatency_mvbd (l : List StunEvent) (seen : List StunEvent)
    (rs : ReportState)
    (hg : rs.gotEP4 = "" ∨ ∃ e0 ∈ seen, e0.fam = IPFamily.v4 ∧
          e0.ipPortStr = rs.gotEP4)
    (hm : rs.report.MappingVariesByDestIP = .set true →
      ∃ e1 ∈ seen, ∃ e2 ∈ seen, e1.fam = IPFamily.v4 ∧ e2.fam = IPFamily.v4 ∧
        e1.ipPortStr ≠ e2.ipPortStr) :
    ((l.foldl addNodeLatency rs).gotEP4 = "" ∨ ∃ e0 ∈ seen ++ l,
      e0.fam = IPFamily.v4 ∧
      e0.ipPortStr = (l.foldl addNodeLatency rs).gotEP4) ∧
    ((l.foldl addNodeLatency rs).report.MappingVariesByDestIP = .set true →
      ∃ e1 ∈ seen ++ l, ∃ e2 ∈ seen ++ l, e1.fam = IPFamily.v4 ∧
        e2.fam = IPFamily.v4 ∧ e1.ipPortStr ≠ e2.ipPortStr) := by
  induction l generalizing rs seen with
  | nil => simpa using ⟨hg, hm⟩
  | cons e t ih =>
    rw [List.foldl_cons]
    have step := addNodeLatency_mvbd_step rs e seen hg hm
    have := ih (seen ++ [e]) (addNodeLatency rs e) step.1 step.2
    simpa [List.append_assoc] using this

theorem foldl_phase2_mvbd (l : List Phase2Event) (seen : List StunEvent)
    (rs : ReportState)
    (hg : rs.gotEP4 = "" ∨ ∃ e0 ∈ seen, e0.fam = IPFamily.v4 ∧
          e0.ipPortStr = rs.gotEP4)
    (hm : rs.report.MappingVariesByDestIP = .set true →
      ∃ e1 ∈ seen, ∃ e2 ∈ seen, e1.fam = IPFamily.v4 ∧ e2.fam = IPFamily.v4 ∧
        e1.ipPortStr ≠ e2.ipPortStr) :
    ((l.foldl applyPhase2Event rs).report.MappingVariesByDestIP = .set true →
      ∃ e1 ∈ seen ++ l.filterMap (fun e =>
          match e with
          | .stun s => some s
          | .https _ => none),
        ∃ e2 ∈ seen ++ l.filterMap (fun e =>
          match e with
          | .stun s => some s
          | .https _ => none),
          e1.fam = IPFamily.v4 ∧ e2.fam = IPFamily.v4 ∧
          e1.ipPortStr ≠ e2.ipPortStr) := by
  induction l generalizing rs seen with
  | nil => simpa using hm
  | cons e t ih =>
    rw [List.foldl_cons]
    cases e with
    | stun s =>
      have step := addNodeLatency_mvbd_step rs s seen hg hm
      have := ih (seen ++ [s]) (addNodeLatency rs s) step.1 step.2
      simpa [List.append_assoc] using this
    | https h =>
      have hp := addHttpsLatency_preserved rs h
      have := ih seen (addHttpsLatency rs h)
        (hp.2.2.2.2.2.2.2.2.2 ▸ hg) (hp.2.2.2.2.2.2.1 ▸ hm)
      simpa using this

theorem foldl_initialTryStep (reg : DERPRegion) (ifState : IfState) (N : Nat) :
    ∀ acc : List Probe × List Probe,
    (List.range N).foldl (initialTryStep reg ifState) acc =
      (acc.1 ++ (List.range N).filterMap (initialProbe4 reg ifState),
       acc.2 ++ (List.range N).filterMap (initialProbe6 reg ifState)) := by
  induction N with
  | zero => intro acc; simp
  | succ n ih =>
    intro acc
    rw [List.range_succ, List.foldl_append, ih]
    simp only [List.foldl_cons, List.foldl_nil, List.filterMap_append,
      List.filterMap_cons, List.filterMap_nil]
    unfold initialTryStep initialProbe4 initialProbe6
    cases hn : reg.Nodes.get? (n % reg.Nodes.length) with
    | none => simp
    | some node =>
      by_cases h4 : ifState.HaveV4 && nodeMight4 node <;>
        by_cases h6 : ifState.HaveV6 && nodeMight6 node <;>
          simp [h4, h6, List.append_assoc]

theorem initialRegionProbes_eq (reg : DERPRegion) (ifState : IfState) :
    initialRegionProbes reg ifState =
      ((List.range 3).filterMap (initialProbe4 reg ifState),
       (List.range 3).filterMap (initialProbe6 reg ifState)) := by
  unfold initialRegionProbes
  rw [foldl_initialTryStep]
  simp

/-- C2 counterexample: `makeProbePlanInitial` iterates over every region of
the map with no test of `Avoid` (netcheck.go lines 596-620), so a relay map
whose only region carries `Avoid = true` still yields a full three-probe
IPv4 set for it — refuting both the claimed Avoid filtering and the claimed
all-Avoid GetReport consequence (STUN probes are sent). -/
theorem C2_counterexample :
    c2exDM.Regions.all (fun kr => kr.2.Avoid) = true ∧
    planGet (makeProbePlanInitial c2exDM { HaveV4 := true, HaveV6 := false })
        (regionKey 1 "v4") =
      some [{ delay := 0, node := "n1", proto := .v4, wait := 0 },
            { delay := 100000000, node := "n1", proto := .v4, wait := 0 },
            { delay := 200000000, node := "n1", proto := .v4, wait := 0 }] := by
  decide

/-- C2 (amended): the initial probe plan treats every region of the map
alike, ignoring `Avoid`: for any region (with nodes) and any try in
{0,1,2}, the region's v4 set holds exactly the probes for node
`try mod len(Nodes)` with delay `try * 100 ms` for which the interface has
IPv4 and the node might answer IPv4 STUN — and symmetrically for v6; the
nonempty sets appear in the plan under `region-<id>-v4` / `region-<id>-v6`.
(Consequently a GetReport over an all-Avoid relay map still sends STUN
probes; no all-Avoid short-circuit exists.) -/
theorem C2_amended_initial_plan (dm : DERPMap) (ifState : IfState) (rid : Nat)
    (reg : DERPRegion) (hmem : (rid, reg) ∈ dm.Regions)
    (_hne : reg.Nodes ≠ []) :
    (∀ p, p ∈ (initialRegionProbes reg ifState).1 ↔
      ∃ t, t < 3 ∧ ∃ n, reg.Nodes.get? (t % reg.Nodes.length) = some n ∧
        ifState.HaveV4 = true ∧ nodeMight4 n = true ∧
        p = { delay := t * defaultInitialRetransmitTime, node := n.Name,
              proto := .v4, wait := 0 }) ∧
    (∀ p, p ∈ (initialRegionProbes reg ifState).2 ↔
      ∃ t, t < 3 ∧ ∃ n, reg.Nodes.get? (t % reg.Nodes.length) = some n ∧
        ifState.HaveV6 = true ∧ nodeMight6 n = true ∧
        p = { delay := t * defaultInitialRetransmitTime, node := n.Name,
              proto := .v6, wait := 0 }) ∧
    ((initialRegionProbes reg ifState).1 ≠ [] →
      (regionKey reg.RegionID "v4", (initialRegionProbes reg ifState).1) ∈
        makeProbePlanInitial dm ifState) ∧
    ((initialRegionProbes reg ifState).2 ≠ [] →
      (regionKey reg.RegionID "v6", (initialRegionProbes reg ifState).2) ∈
        makeProbePlanInitial dm ifState) := by
  refine ⟨?_, ?_, ?_, ?_⟩
  · intro p
    rw [initialRegionProbes_eq]
    constructor
    · intro hp
      obtain ⟨t, ht, hf⟩ := List.mem_filterMap.mp hp
      unfold initialProbe4 at hf
      cases hget : reg.Nodes.get? (t % reg.Nodes.length) with
      | none => rw [hget] at hf; exact absurd hf (by simp)
      | some n =>
        rw [hget] at hf
        dsimp only at hf
        by_cases hc : ifState.HaveV4 && nodeMight4 n
        · rw [if_pos hc] at hf
          obtain ⟨hc4, hcm⟩ := Bool.and_eq_true_iff.mp hc
          exact ⟨t, List.mem_range.mp ht, n, hget, hc4, hcm,
            (Option.some.inj hf).symm⟩
        · rw [if_neg hc] at hf
          exact absurd hf (by simp)
    · rintro ⟨t, ht3, n, hget, h4, hm4, rfl⟩
      refine List.mem_filterMap.mpr ⟨t, List.mem_range.mpr ht3, ?_⟩
      unfold initialProbe4
      rw [hget]
      simp [h4, hm4]
  · intro p
    rw [initialRegionProbes_eq]
    constructor
    · intro hp
      obtain ⟨t, ht, hf⟩ := List.mem_filterMap.mp hp
      unfold initialProbe6 at hf
      cases hget : reg.Nodes.get? (t % reg.Nodes.length) with
      | none => rw [hget] at hf; exact absurd hf (by simp)
      | some n =>
        rw [hget] at hf
        dsimp only at hf
        by_cases hc : ifState.HaveV6 && nodeMight6 n
        · rw [if_pos hc] at hf
          obtain ⟨hc6, hcm⟩ := Bool.and_eq_true_iff.mp hc
          exact ⟨t, List.mem_range.mp ht, n, hget, hc6, hcm,
            (Option.some.inj hf).symm⟩
        · rw [if_neg hc] at hf
          exact absurd hf (by simp)
    · rintro ⟨t, ht3, n, hget, h6, hm6, rfl⟩
      refine List.mem_filterMap.mpr ⟨t, List.mem_range.mpr ht3, ?_⟩
      unfold initialProbe6
      rw [hget]
      simp [h6, hm6]
  · intro hne4
    unfold makeProbePlanInitial
    refine List.mem_flatMap.mpr ⟨(rid, reg), hmem, ?_⟩
    unfold regionPlanEntries
    dsimp only
    rw [if_pos (by simpa [List.length_pos] using hne4)]
    exact List.mem_append_left _ (List.mem_singleton_self _)
  · intro hne6
    unfold makeProbePlanInitial
    refine List.mem_flatMap.mpr ⟨(rid, reg), hmem, ?_⟩
    unfold regionPlanEntries
    dsimp only
    refine List.mem_append_right _ ?_
    rw [if_pos (by simpa [List.length_pos] using hne6)]
    exact List.mem_singleton_self _

/-- C2 witness: the amended theorem applied to the all-Avoid map: try 1's
IPv4 probe (100 ms delay, node n1) is in the avoided region's v4 set, and
that set is in the plan. -/
theorem C2_witness :
    ({ delay := 100000000, node := "n1", proto := ProbeProto.v4, wait := 0 } :
        Probe) ∈
      (initialRegionProbes c2exRegion { HaveV4 := true, HaveV6 := false }).1 ∧
    (regionKey 1 "v4",
      (initialRegionProbes c2exRegion { HaveV4 := true, HaveV6 := false }).1) ∈
      makeProbePlanInitial c2exDM { HaveV4 := true, HaveV6 := false } :=
  ⟨((C2_amended_initial_plan c2exDM { HaveV4 := true, HaveV6 := false } 1
      c2exRegion (by decide) (by decide)).1 _).mpr
     ⟨1, by decide, { Name := "n1", RegionID := 1 }, by decide, rfl, by decide,
      by decide⟩,
   (C2_amended_initial_plan c2exDM { HaveV4 := true, HaveV6 := false } 1
      c2exRegion (by decide) (by decide)).2.2.1 (by decide)⟩

theorem foldl_incrTryStep_empty (reg : DERPRegion) (last : Report)
    (do4 had6 : Bool) (hempty : reg.Nodes.isEmpty = true) (l : List Nat)
    (acc : Bool × List Probe × List Probe) :
    l.foldl (incrTryStep reg last do4 had6) acc = acc := by
  induction l generalizing acc with
  | nil => rfl
  | cons t ts ih =>
    rw [List.foldl_cons]
    rw [show incrTryStep reg last do4 had6 acc t = acc from by
      unfold incrTryStep
      rw [if_pos hempty]]
    exact ih acc

theorem foldl_incrTryStep (reg : DERPRegion) (last : Report)
    (do4 had6 : Bool) (hne : ¬reg.Nodes.isEmpty = true) (N : Nat)
    (do6 : Bool) :
    (List.range N).foldl (incrTryStep reg last do4 had6) (do6, [], []) =
      (do6 && (had6 || decide (N ≤ 1)),
       if do4 then (List.range N).map (incrProbe4 reg last) else [],
       if do6 then
         ((List.range N).filter (fun t => decide (t = 0) || had6)).map
           (incrProbe6 reg last)
       else []) := by
  induction N with
  | zero => cases do6 <;> cases do4 <;> simp
  | succ n ih =>
    rw [List.range_succ, List.foldl_append, ih]
    simp only [List.foldl_cons, List.foldl_nil, List.map_append,
      List.filter_append, List.filter_cons, List.filter_nil, List.map_cons,
      List.map_nil]
    unfold incrTryStep
    rw [if_neg hne]
    dsimp only
    cases hn : decide (n = 0) with
    | true =>
      have hn0 : n = 0 := of_decide_eq_true hn
      subst hn0
      cases do6 <;> cases do4 <;> cases had6 <;>
        simp [incrProbe4, incrProbe6, incrDelay]
    | false =>
      have hn0 : ¬n = 0 := of_decide_eq_false hn
      have hle : ¬(n + 1 ≤ 1) := by omega
      cases do6 <;> cases do4 <;> cases had6 <;>
        simp [incrProbe4, incrProbe6, incrDelay, hn0, hle, Nat.le_of_lt_succ]

theorem incrRegionProbes_eq (reg : DERPRegion) (ri : Nat) (last : Report)
    (have4if have6if had6 hadBoth : Bool) (hne : ¬reg.Nodes.isEmpty = true) :
    incrRegionProbes reg ri last have4if have6if had6 hadBoth =
      (if (incrDoFlags ri have4if have6if had6 hadBoth).1 then
         (List.range (incrTries reg ri last)).map (incrProbe4 reg last)
       else [],
       if (incrDoFlags ri have4if have6if had6 hadBoth).2 then
         ((List.range (incrTries reg ri last)).filter
           (fun t => decide (t = 0) || had6)).map (incrProbe6 reg last)
       else []) := by
  unfold incrRegionProbes
  dsimp only
  rw [foldl_incrTryStep reg last _ had6 hne]

theorem incrRegionProbes_empty (reg : DERPRegion) (ri : Nat) (last : Report)
    (have4if have6if had6 hadBoth : Bool) (hempty : reg.Nodes.isEmpty = true) :
    incrRegionProbes reg ri last have4if have6if had6 hadBoth = ([], []) := by
  unfold incrRegionProbes
  dsimp only
  rw [foldl_incrTryStep_empty reg last _ had6 hempty]

theorem filter_zero_range (N : Nat) :
    (List.range N).filter (fun t => decide (t = 0)) =
      if N = 0 then [] else [0] := by
  induction N with
  | zero => rfl
  | succ n ih =>
    rw [List.range_succ, List.filter_append, ih]
    by_cases hn : n = 0 <;> simp [hn]

/-- C7: every set of the incremental probe plan belongs to one of the (at
most three) kept regions, at sorted rank `ri`; its v4 set has exactly
`incrTries` probes (1 by default, 2 for the two fastest ranks, 4 for the
previous preferred region — the preferred override wins) and its v6 set at
most that many; and the j-th probe of either set is the probe of try j:
delay `j * (prevLatency * 120/100)` (200 ms default when no previous
latency) plus `j * 50 ms` once `j > 1`, aimed at node
`j mod len(Nodes)`. -/
theorem C7_incremental_tries_delays (dm : DERPMap) (ifState : IfState)
    (last : Report) (hlast : last.RegionLatency.isEmpty = false)
    (key : String) (ps : List Probe)
    (hmem : (key, ps) ∈ makeProbePlan dm ifState (some last)) :
    ∃ ri reg,
      ((sortRegions dm last).take numIncrementalRegions).get? ri = some reg ∧
      ri < numIncrementalRegions ∧
      ((key = regionKey reg.RegionID "v4" ∧
        ps.length = incrTries reg ri last ∧
        ∀ j p, ps.get? j = some p → p = incrProbe4 reg last j) ∨
       (key = regionKey reg.RegionID "v6" ∧
        ps.length ≤ incrTries reg ri last ∧
        ∀ j p, ps.get? j = some p → p = incrProbe6 reg last j)) := by
  unfold makeProbePlan at hmem
  dsimp only at hmem
  rw [hlast] at hmem
  simp only [Bool.false_eq_true, if_false] at hmem
  by_cases hif : ¬ifState.HaveV4 ∧ ¬ifState.HaveV6
  · rw [if_pos hif] at hmem
    exact absurd hmem (List.not_mem_nil _)
  · rw [if_neg hif] at hmem
    obtain ⟨⟨ri, reg⟩, henum, hentry⟩ := List.mem_flatMap.mp hmem
    have hget : ((sortRegions dm last).take numIncrementalRegions)[ri]? =
        some reg := List.mk_mem_enum_iff_getElem?.mp henum
    have hri : ri < numIncrementalRegions := by
      have hlt := List.getElem?_eq_some.mp hget
      have := hlt.1
      have hlen := List.length_take_le numIncrementalRegions
        (sortRegions dm last)
      omega
    refine ⟨ri, reg, ?_, hri, ?_⟩
    · rw [List.get?_eq_getElem?]
      exact hget
    · have hnodes : ¬reg.Nodes.isEmpty = true := by
        intro hempty
        rw [show (ri, reg).2 = reg from rfl,
          show (ri, reg).1 = ri from rfl] at hentry
        rw [incrRegionProbes_empty reg ri last ifState.HaveV4 ifState.HaveV6
          (decide (0 < last.RegionV6Latency.length))
          (ifState.HaveV6 && decide (0 < last.RegionV4Latency.length) &&
            decide (0 < last.RegionV6Latency.length)) hempty] at hentry
        unfold regionPlanEntries at hentry
        simp at hentry
      rw [show (ri, reg).2 = reg from rfl,
        show (ri, reg).1 = ri from rfl] at hentry
      rw [incrRegionProbes_eq reg ri last ifState.HaveV4 ifState.HaveV6
        (decide (0 < last.RegionV6Latency.length))
        (ifState.HaveV6 && decide (0 < last.RegionV4Latency.length) &&
          decide (0 < last.RegionV6Latency.length)) hnodes] at hentry
      unfold regionPlanEntries at hentry
      dsimp only at hentry
      set dflags := incrDoFlags ri ifState.HaveV4 ifState.HaveV6
        (decide (0 < last.RegionV6Latency.length))
        (ifState.HaveV6 && decide (0 < last.RegionV4Latency.length) &&
          decide (0 < last.RegionV6Latency.length)) with hdflags
      set tries := incrTries reg ri last with htries
      rcases List.mem_append.mp hentry with h | h
      · left
        by_cases hd4 : dflags.1 = true
        · rw [if_pos hd4] at h
          by_cases hlen : ((List.range tries).map
              (incrProbe4 reg last)).length > 0
          · rw [if_pos hlen] at h
            have hkv := List.mem_singleton.mp h
            have hk : key = regionKey reg.RegionID "v4" :=
              congrArg Prod.fst hkv
            have hv : ps = (List.range tries).map (incrProbe4 reg last) :=
              congrArg Prod.snd hkv
            refine ⟨hk, ?_, ?_⟩
            · rw [hv]
              simp
            · intro j p hp
              rw [hv, List.get?_map] at hp
              cases hr : (List.range tries).get? j with
              | none => rw [hr] at hp; exact absurd hp (by simp)
              | some t =>
                rw [hr] at hp
                have hjlt : j < tries := by
                  have := List.get?_eq_some.mp hr
                  simpa using this.1
                rw [List.get?_range hjlt] at hr
                have ht : t = j := (Option.some.inj hr).symm
                subst ht
                exact (Option.some.inj hp).symm
          · rw [if_neg hlen] at h
            exact absurd h (List.not_mem_nil _)
        · rw [if_neg hd4] at h
          simp at h
      · right
        by_cases hd6 : dflags.2 = true
        · rw [if_pos hd6] at h
          by_cases hlen : (((List.range tries).filter
              (fun t => decide (t = 0) ||
                decide (0 < last.RegionV6Latency.length))).map
              (incrProbe6 reg last)).length > 0
          · rw [if_pos hlen] at h
            have hkv := List.mem_singleton.mp h
            have hk : key = regionKey reg.RegionID "v6" :=
              congrArg Prod.fst hkv
            have hv : ps = ((List.range tries).filter
                (fun t => decide (t = 0) ||
                  decide (0 < last.RegionV6Latency.length))).map
                (incrProbe6 reg last) :=
              congrArg Prod.snd hkv
            refine ⟨hk, ?_, ?_⟩
            · rw [hv, List.length_map]
              calc ((List.range tries).filter _).length
                  ≤ (List.range tries).length := List.length_filter_le _ _
                _ = tries := List.length_range tries
            · intro j p hp
              rw [hv, List.get?_map] at hp
              by_cases hh6 : decide (0 < last.RegionV6Latency.length) = true
              · simp only [hh6, Bool.or_true] at hp
                rw [List.filter_true] at hp
                cases hr : (List.range tries).get? j with
                | none => rw [hr] at hp; exact absurd hp (by simp)
                | some t =>
                  rw [hr] at hp
                  have hjlt : j < tries := by
                    have := List.get?_eq_some.mp hr
                    simpa using this.1
                  rw [List.get?_range hjlt] at hr
                  have ht : t = j := (Option.some.inj hr).symm
                  subst ht
                  exact (Option.some.inj hp).symm
              · simp only [hh6, Bool.or_false] at hp
                rw [filter_zero_range] at hp
                have htpos : ¬tries = 0 := by
                  rw [htries]
                  unfold incrTries
                  (repeat' split) <;> decide
                rw [if_neg htpos] at hp
                cases j with
                | zero =>
                  simp only [List.get?] at hp
                  have hp0 : p = incrProbe6 reg last 0 :=
                    (Option.some.inj hp).symm
                  exact hp0
                | succ m =>
                  simp only [List.get?] at hp
                  exact absurd hp (by simp)
          · rw [if_neg hlen] at h
            exact absurd h (List.not_mem_nil _)
        · rw [if_neg hd6] at h
          simp at h

/-- C7 witness: the theorem applied to a concrete incremental plan: the
previous preferred region 1 (rank 1 by latency) gets 4 tries at delays
0, 60 ms, 220 ms and 330 ms, all aimed at its single node. -/
theorem C7_witness :
    ∃ ri reg,
      ((sortRegions c7DM c7Last).take numIncrementalRegions).get? ri =
        some reg ∧
      ri < numIncrementalRegions ∧
      ((regionKey 1 "v4" = regionKey reg.RegionID "v4" ∧
        c7Probes.length = incrTries reg ri c7Last ∧
        ∀ j p, c7Probes.get? j = some p → p = incrProbe4 reg c7Last j) ∨
       (regionKey 1 "v4" = regionKey reg.RegionID "v6" ∧
        c7Probes.length ≤ incrTries reg ri c7Last ∧
        ∀ j p, c7Probes.get? j = some p → p = incrProbe6 reg c7Last j)) :=
  C7_incremental_tries_delays c7DM { HaveV4 := true, HaveV6 := true } c7Last
    (by decide) (regionKey 1 "v4") c7Probes (by decide)

/-- C4 counterexample: the invariant can break when a late STUN response
races the HTTPS fallback. In the realisable run `c4Run`, region 5 was put
on the HTTPS `need` list (no latency yet), a late IPv4 STUN response then
recorded `RegionLatency[5] = RegionV4Latency[5] = 10 ms`, and the HTTPS
goroutine finally overwrote `RegionLatency[5] = 40 ms` with a direct map
assignment — leaving the returned report with a RegionV4Latency key whose
RegionLatency value (40 ms) exceeds the family value (10 ms). -/
theorem C4_counterexample :
    validRun c4Run = true ∧
    mapGet (runGetReport c4Run).RegionV4Latency 5 = some 10000000 ∧
    mapGet (runGetReport c4Run).RegionLatency 5 = some 40000000 ∧
    ¬(40000000 ≤ (10000000 : Nat)) := by decide

/-- C4 (amended): after GetReport returns, every key of RegionV4Latency
and RegionV6Latency is also a key of RegionLatency (unconditionally); and
provided no region was measured both by a STUN response and by the HTTPS
fallback in the same call, RegionLatency's value at each family key is at
most the family-specific value. -/
theorem C4_amended_latency_invariant (run : RunInput) :
    (∀ k, ((mapGet (runGetReport run).RegionV4Latency k).isSome = true ∨
           (mapGet (runGetReport run).RegionV6Latency k).isSome = true) →
      (mapGet (runGetReport run).RegionLatency k).isSome = true) ∧
    ((∀ hev ∈ httpsEvents run, ∀ s ∈ stunEvents run,
        hev.regionID ≠ s.regionID) →
      (∀ k fv, mapGet (runGetReport run).RegionV4Latency k = some fv →
        ∃ v, mapGet (runGetReport run).RegionLatency k = some v ∧ v ≤ fv) ∧
      (∀ k fv, mapGet (runGetReport run).RegionV6Latency k = some fv →
        ∃ v, mapGet (runGetReport run).RegionLatency k = some v ∧ v ≤ fv)) := by
  have hmaps := midState_maps run
  constructor
  · have hcont0 : ∀ k,
        ((mapGet (({ incremental := run.incremental } : ReportState)).report.RegionV4Latency k).isSome = true ∨
         (mapGet (({ incremental := run.incremental } : ReportState)).report.RegionV6Latency k).isSome = true) →
        (mapGet (({ incremental := run.incremental } : ReportState)).report.RegionLatency k).isSome = true := by
      intro k hk
      rcases hk with h4 | h6
      · exact absurd h4 (by simp [mapGet, newReport])
      · exact absurd h6 (by simp [mapGet, newReport])
    have h1 := foldl_addNodeLatency_contain run.phase1 _ hcont0
    have hmid : ∀ k,
        ((mapGet (midState run).report.RegionV4Latency k).isSome = true ∨
         (mapGet (midState run).report.RegionV6Latency k).isSome = true) →
        (mapGet (midState run).report.RegionLatency k).isSome = true := by
      intro k hk
      rw [hmaps.1]
      rcases hk with h4 | h6
      · rw [hmaps.2.1] at h4
        exact h1 k (Or.inl h4)
      · rw [hmaps.2.2] at h6
        exact h1 k (Or.inr h6)
    exact foldl_phase2_contain run.phase2 (midState run) hmid
  · intro hdisj
    have hd0 : latencyDominated ({ incremental := run.incremental } : ReportState)
        [] := by
      constructor
      · intro k fv hk
        exact absurd hk (by simp [mapGet, newReport])
      · intro k fv hk
        exact absurd hk (by simp [mapGet, newReport])
    have hl1 := foldl_addNodeLatency_latencyDominated run.phase1 [] _ hd0
    simp only [List.nil_append] at hl1
    have hmiddom : latencyDominated (midState run) run.phase1 := by
      constructor
      · intro k fv hk
        rw [hmaps.2.1] at hk
        rw [hmaps.1]
        exact hl1.1 k fv hk
      · intro k fv hk
        rw [hmaps.2.2] at hk
        rw [hmaps.1]
        exact hl1.2 k fv hk
    have hdisj' : ∀ hev, Phase2Event.https hev ∈ run.phase2 →
        ∀ s, s ∈ run.phase1 ++ run.phase2.filterMap (fun e =>
          match e with
          | .stun s' => some s'
          | .https _ => none) → hev.regionID ≠ s.regionID := by
      intro hev hm s hs
      refine hdisj hev ?_ s ?_
      · unfold httpsEvents
        exact List.mem_filterMap.mpr ⟨.https hev, hm, rfl⟩
      · unfold stunEvents
        exact hs
    have hl2 := foldl_phase2_latencyDominated run.phase2 run.phase1
      (midState run) hmiddom hdisj'
    exact ⟨fun k fv hk => (hl2.1 k fv hk).1, fun k fv hk => (hl2.2 k fv hk).1⟩

/-- C4 witness: the amended theorem applied to a run with one IPv4 STUN
success for region 1 and no HTTPS measurement: the key is in RegionLatency
with a value at most the family value. -/
theorem C4_witness :
    (mapGet (runGetReport c4wRun).RegionLatency 1).isSome = true ∧
    (∃ v, mapGet (runGetReport c4wRun).RegionLatency 1 = some v ∧
      v ≤ 10000000) :=
  ⟨(C4_amended_latency_invariant c4wRun).1 1 (Or.inl (by decide)),
   ((C4_amended_latency_invariant c4wRun).2
      (by intro hev hm; simp [httpsEvents, c4wRun] at hm)).1
     1 10000000 (by decide)⟩

/-- C5 counterexample: `addNodeLatency` decides MappingVariesByDestIP
purely by comparing reflexive `ip:port` strings, with no region check. In
the realisable run `c5Run`, both successful IPv4 probes went to nodes of
the single region 1, yet the two distinct reflexive endpoints set
`MappingVariesByDestIP = true` — refuting the claim that this requires
probes to two distinct regions. -/
theorem C5_counterexample :
    validRun c5Run = true ∧
    (runGetReport c5Run).MappingVariesByDestIP = .set true ∧
    (stunEvents c5Run).all (fun e => e.regionID == 1) = true := by decide

/-- C5 (amended): MappingVariesByDestIP = true implies at least two IPv4
STUN probes succeeded observing distinct reflexive `ip:port` endpoints;
the probed nodes need not belong to distinct regions. -/
theorem C5_amended_mapping_varies (run : RunInput) (hv : validRun run = true)
    (hm : (runGetReport run).MappingVariesByDestIP = .set true) :
    ∃ e1 ∈ stunEvents run, ∃ e2 ∈ stunEvents run,
      e1.fam = IPFamily.v4 ∧ e2.fam = IPFamily.v4 ∧
      e1.ipPortStr ≠ e2.ipPortStr := by
  have h1 := foldl_addNodeLatency_mvbd run.phase1 []
    ({ incremental := run.incremental } : ReportState)
    (Or.inl rfl) (fun hc => absurd hc (by simp [newReport]))
  simp only [List.nil_append] at h1
  have hgeq : (midState run).gotEP4 =
      (run.phase1.foldl addNodeLatency
        ({ incremental := run.incremental } : ReportState)).gotEP4 := by
    unfold midState
    by_cases hc : run.portMapperConfigured <;>
      simp [hc, (probePortMapServices_preserved _ _).2.2.2.2.2.2.2.2.1,
            (waitHairCheck_preserved _ _ _).2.2.2.2.2.2.2.2.2.2.1]
  have hmeq : (midState run).report.MappingVariesByDestIP =
      ((run.phase1.foldl addNodeLatency
        ({ incremental := run.incremental } : ReportState)).report).MappingVariesByDestIP := by
    unfold midState
    by_cases hc : run.portMapperConfigured <;>
      simp [hc, (probePortMapServices_preserved _ _).2.2.2.2.1,
            (waitHairCheck_preserved _ _ _).2.2.2.2.2.2.1]
  have hgmid : (midState run).gotEP4 = "" ∨ ∃ e0 ∈ run.phase1,
      e0.fam = IPFamily.v4 ∧ e0.ipPortStr = (midState run).gotEP4 := by
    rw [hgeq]
    exact h1.1
  have hmmid : (midState run).report.MappingVariesByDestIP = .set true →
      ∃ e1 ∈ run.phase1, ∃ e2 ∈ run.phase1, e1.fam = IPFamily.v4 ∧
        e2.fam = IPFamily.v4 ∧ e1.ipPortStr ≠ e2.ipPortStr := by
    rw [hmeq]
    exact h1.2
  have hfold := foldl_phase2_mvbd run.phase2 run.phase1 (midState run) hgmid hmmid
  unfold runGetReport at hm
  exact hfold hm

/-- C5 witness: the amended theorem applied to the run of the spec's S2
scenario (two regions answering with different reflexive endpoints). -/
theorem C5_witness :
    validRun c5wRun = true ∧
    ∃ e1 ∈ stunEvents c5wRun, ∃ e2 ∈ stunEvents c5wRun,
      e1.fam = IPFamily.v4 ∧ e2.fam = IPFamily.v4 ∧
      e1.ipPortStr ≠ e2.ipPortStr :=
  ⟨by decide, C5_amended_mapping_varies c5wRun (by decide) (by decide)⟩

/-- C6 counterexample: a full (non-incremental) report can leave
HairPinning unknown. In the realisable run `emptyRun` (UDP entirely
blocked, so no IPv4 STUN success ever starts the hairpin check)
`waitHairCheck` returns with `sentHairCheck` false and the full report
carries `HairPinning = unset`, contradicting the claim that a full report
always decides it. -/
theorem C6_counterexample :
    validRun emptyRun = true ∧ emptyRun.incremental = false ∧
    (runGetReport emptyRun).HairPinning = .unset := by decide

/-- C6 (amended): HairPinning is carried over verbatim from the
predecessor on incremental reports (so it is unknown there only when the
predecessor's value was unknown); on a full report it is decided by the
hairpin check — true if the echo arrived, false on the 100 ms timeout —
provided the check was started at all (some IPv4 STUN probe succeeded) and
the overall context did not expire first; a full report leaves it unknown
only when no IPv4 STUN probe succeeded or the context expired. -/
theorem C6_amended_hairpinning (run : RunInput) (hv : validRun run = true) :
    (run.incremental = true →
      ∃ l, run.lastReport = some l ∧
        (runGetReport run).HairPinning = l.HairPinning) ∧
    (run.incremental = false → (runGetReport run).HairPinning = .unset →
      (∀ e ∈ run.phase1, e.fam ≠ IPFamily.v4) ∨ run.hairOutcome = .ctxDone) ∧
    (run.incremental = false → (∃ e ∈ run.phase1, e.fam = IPFamily.v4) →
      (run.hairOutcome = .arrived → (runGetReport run).HairPinning = .set true) ∧
      (run.hairOutcome = .timedOut →
        (runGetReport run).HairPinning = .set false)) := by
  have hfin : (runGetReport run).HairPinning = (midState run).report.HairPinning :=
    (foldl_phase2_portmap_fields run.phase2 (midState run)).2.2.2
  have hmid : (midState run).report.HairPinning =
      (waitHairCheck run.lastReport run.hairOutcome
        (run.phase1.foldl addNodeLatency
          { incremental := run.incremental })).report.HairPinning := by
    unfold midState
    by_cases hc : run.portMapperConfigured <;>
      simp [hc, (probePortMapServices_preserved _ _).2.2.2.1]
  set rs1 := run.phase1.foldl addNodeLatency
      ({ incremental := run.incremental } : ReportState) with hrs1
  have hinc1 : rs1.incremental = run.incremental :=
    foldl_addNodeLatency_incremental _ _
  have hhp1 : rs1.report.HairPinning = .unset := by
    rw [hrs1, foldl_addNodeLatency_HairPinning]
    rfl
  refine ⟨?_, ?_, ?_⟩
  · intro hi
    have hsome : run.lastReport.isSome = true := by
      unfold validRun at hv
      simp only [Bool.and_eq_true] at hv
      have h3 := hv.1.1.1.2
      rw [hi] at h3
      simpa using h3
    obtain ⟨l, hl⟩ := Option.isSome_iff_exists.mp hsome
    refine ⟨l, hl, ?_⟩
    rw [hfin, hmid, hl]
    unfold waitHairCheck
    simp [hinc1, hi]
  · intro hi hunset
    rw [hfin, hmid] at hunset
    by_cases hs : rs1.sentHairCheck = true
    · right
      cases ho : run.hairOutcome with
      | arrived =>
        exfalso
        revert hunset
        unfold waitHairCheck
        simp [hinc1, hi, hs, ho]
      | timedOut =>
        exfalso
        revert hunset
        unfold waitHairCheck
        simp [hinc1, hi, hs, ho]
      | ctxDone => rfl
    · left
      intro e he hf
      exact hs (hrs1 ▸ foldl_addNodeLatency_sent_of_v4 run.phase1 _ rfl hi
        ⟨e, he, hf⟩)
  · intro hi hex
    have hs : rs1.sentHairCheck = true :=
      hrs1 ▸ foldl_addNodeLatency_sent_of_v4 run.phase1 _ rfl hi hex
    constructor <;> intro ho <;>
      (rw [hfin, hmid]
       unfold waitHairCheck
       simp [hinc1, hi, hs, ho])

/-- C6 witness: the amended theorem applied to an incremental run whose
predecessor decided HairPinning (the value is carried over) and to a full
run with one IPv4 success whose echo timed out (decided false). -/
theorem C6_witness :
    (∃ l, c6wRun.lastReport = some l ∧
      (runGetReport c6wRun).HairPinning = l.HairPinning) ∧
    (runGetReport c6fRun).HairPinning = OptBool.set false :=
  ⟨(C6_amended_hairpinning c6wRun (by decide)).1 rfl,
   ((C6_amended_hairpinning c6fRun (by decide)).2.2 rfl
      ⟨_, List.mem_singleton_self _, rfl⟩).2 rfl⟩

/-- C8: GetReport fails with the nil-relay-map error on a nil map and with
the concurrent-call error while another invocation is running; in both
cases no setup is produced (no Report will be built) and the client's
stored state — history, last report, nextFull, lastFull — is returned
unchanged. -/
theorem C8_getreport_errors (c : ClientState) (now : Nat) :
    getReportEntry c none now = (some errNilDERPMap, c, none) ∧
    (∀ dm : DERPMap, c.curStateBusy = true →
      getReportEntry c (some dm) now = (some errConcurrent, c, none)) := by
  constructor
  · rfl
  · intro dm h
    unfold getReportEntry
    simp [h]

/-- C8 witness: the theorem applied to a busy client and the nil map. -/
theorem C8_witness :
    getReportEntry { curStateBusy := true } none 7 =
      (some errNilDERPMap, { curStateBusy := true }, none) ∧
    getReportEntry { curStateBusy := true } (some exDMone) 7 =
      (some errConcurrent, { curStateBusy := true }, none) :=
  ⟨(C8_getreport_errors { curStateBusy := true } 7).1,
   (C8_getreport_errors { curStateBusy := true } 7).2 exDMone rfl⟩

end Netcheck

namespace Netcheck

theorem selStep_oldLat (br : List (Nat × Nat)) (pd : Nat)
    (acc : Nat × Nat × Nat) (kd : Nat × Nat) :
    (selStep br pd acc kd).2.2 = if kd.1 = pd then kd.2 else acc.2.2 := by
  unfold selStep
  dsimp only
  (repeat' split) <;> rfl

theorem selFold_oldLat (br : List (Nat × Nat)) (pd : Nat)
    (l : List (Nat × Nat)) :
    ∀ acc : Nat × Nat × Nat,
    (l.foldl (selStep br pd) acc).2.2 =
      l.foldl (fun o kd => if kd.1 = pd then kd.2 else o) acc.2.2 := by
  induction l with
  | nil => intro acc; rfl
  | cons kd t ih =>
    intro acc
    rw [List.foldl_cons, List.foldl_cons, ih]
    rw [selStep_oldLat]

theorem lastVal_const (t : List (Nat × Nat)) (k o : Nat)
    (h : ∀ kd ∈ t, kd.1 ≠ k) :
    t.foldl (fun o kd => if kd.1 = k then kd.2 else o) o = o := by
  induction t generalizing o with
  | nil => rfl
  | cons kd tl ih =>
    rw [List.foldl_cons]
    rw [if_neg (h kd (List.mem_cons_self _ _))]
    exact ih o (fun x hx => h x (List.mem_cons_of_mem _ hx))

theorem lastVal_of_mapGet (l : List (Nat × Nat)) (k v : Nat)
    (hnd : (l.map Prod.fst).Nodup) (hget : mapGet l k = some v) :
    l.foldl (fun o kd => if kd.1 = k then kd.2 else o) 0 = v := by
  induction l with
  | nil => exact absurd hget (by simp [mapGet])
  | cons p t ih =>
    rw [List.foldl_cons]
    have hnd' : p.1 ∉ t.map Prod.fst ∧ (t.map Prod.fst).Nodup := by
      rw [List.map_cons, List.nodup_cons] at hnd
      exact hnd
    by_cases hp : p.1 = k
    · rw [if_pos hp]
      unfold mapGet at hget
      rw [if_pos hp] at hget
      have hv : p.2 = v := Option.some.inj hget
      rw [hv]
      refine lastVal_const t k v ?_
      intro kd hkd hc
      have hmem : p.1 ∈ t.map Prod.fst := by
        rw [hp, ← hc]
        exact List.mem_map.mpr ⟨kd, hkd, rfl⟩
      exact hnd'.1 hmem
    · rw [if_neg hp]
      unfold mapGet at hget
      rw [if_neg hp] at hget
      exact ih hnd'.2 hget

theorem mapGet_isSome_of_mem (l : List (Nat × Nat)) (kd : Nat × Nat)
    (h : kd ∈ l) : (mapGet l kd.1).isSome = true := by
  induction l with
  | nil => exact absurd h (List.not_mem_nil _)
  | cons p t ih =>
    unfold mapGet
    by_cases hp : p.1 = kd.1
    · rw [if_pos hp]
      rfl
    · rw [if_neg hp]
      rcases List.mem_cons.mp h with rfl | hmem
      · exact absurd rfl hp
      · exact ih hmem

theorem selFold_min (br : List (Nat × Nat)) (pd : Nat)
    (l : List (Nat × Nat)) (hk0 : ∀ kd ∈ l, kd.1 ≠ 0) :
    ∀ p b o, p ≠ 0 → b = mapGetD br p 0 →
      (l.foldl (selStep br pd) (p, b, o)).1 ≠ 0 ∧
      (l.foldl (selStep br pd) (p, b, o)).2.1 =
        mapGetD br (l.foldl (selStep br pd) (p, b, o)).1 0 ∧
      (l.foldl (selStep br pd) (p, b, o)).2.1 ≤ b ∧
      ((l.foldl (selStep br pd) (p, b, o)).1 = p ∨
        ∃ kd ∈ l, kd.1 = (l.foldl (selStep br pd) (p, b, o)).1) ∧
      ∀ kd ∈ l, (l.foldl (selStep br pd) (p, b, o)).2.1 ≤
        mapGetD br kd.1 0 := by
  induction l with
  | nil =>
    intro p b o hp hb
    exact ⟨hp, by simpa using hb, Nat.le_refl b, Or.inl rfl,
      fun kd hkd => absurd hkd (List.not_mem_nil _)⟩
  | cons kd t ih =>
    intro p b o hp hb
    rw [List.foldl_cons]
    by_cases hc : p = 0 ∨ mapGetD br kd.1 0 < b
    · rw [show selStep br pd (p, b, o) kd =
          (kd.1, mapGetD br kd.1 0, if kd.1 = pd then kd.2 else o) from by
        unfold selStep
        dsimp only
        rw [if_pos hc]]
      have hlt : mapGetD br kd.1 0 < b := by
        rcases hc with h0 | hlt
        · exact absurd h0 hp
        · exact hlt
      have hres := ih (fun x hx => hk0 x (List.mem_cons_of_mem _ hx))
        kd.1 (mapGetD br kd.1 0) (if kd.1 = pd then kd.2 else o)
        (hk0 kd (List.mem_cons_self _ _)) rfl
      refine ⟨hres.1, hres.2.1, ?_, ?_, ?_⟩
      · exact Nat.le_trans hres.2.2.1 (Nat.le_of_lt hlt)
      · rcases hres.2.2.2.1 with heq | ⟨x, hx, hxe⟩
        · exact Or.inr ⟨kd, List.mem_cons_self _ _, heq.symm ▸ rfl⟩
        · exact Or.inr ⟨x, List.mem_cons_of_mem _ hx, hxe⟩
      · intro x hx
        rcases List.mem_cons.mp hx with rfl | hmem
        · exact hres.2.2.1
        · exact hres.2.2.2.2 x hmem
    · rw [show selStep br pd (p, b, o) kd =
          (p, b, if kd.1 = pd then kd.2 else o) from by
        unfold selStep
        dsimp only
        rw [if_neg hc]]
      have hge : b ≤ mapGetD br kd.1 0 := by
        have hnlt : ¬mapGetD br kd.1 0 < b := fun hlt => hc (Or.inr hlt)
        omega
      have hres := ih (fun x hx => hk0 x (List.mem_cons_of_mem _ hx))
        p b (if kd.1 = pd then kd.2 else o) hp hb
      refine ⟨hres.1, hres.2.1, hres.2.2.1, ?_, ?_⟩
      · rcases hres.2.2.2.1 with heq | ⟨x, hx, hxe⟩
        · exact Or.inl heq
        · exact Or.inr ⟨x, List.mem_cons_of_mem _ hx, hxe⟩
      · intro x hx
        rcases List.mem_cons.mp hx with rfl | hmem
        · exact Nat.le_trans hres.2.2.1 hge
        · exact hres.2.2.2.2 x hmem

theorem selFold_min_from_zero (br : List (Nat × Nat)) (pd : Nat)
    (l : List (Nat × Nat)) (hk0 : ∀ kd ∈ l, kd.1 ≠ 0) (hne : l ≠ []) :
    (l.foldl (selStep br pd) (0, 0, 0)).1 ≠ 0 ∧
    (l.foldl (selStep br pd) (0, 0, 0)).2.1 =
      mapGetD br (l.foldl (selStep br pd) (0, 0, 0)).1 0 ∧
    (∃ kd ∈ l, kd.1 = (l.foldl (selStep br pd) (0, 0, 0)).1) ∧
    ∀ kd ∈ l, (l.foldl (selStep br pd) (0, 0, 0)).2.1 ≤
      mapGetD br kd.1 0 := by
  cases l with
  | nil => exact absurd rfl hne
  | cons kd0 t =>
    rw [List.foldl_cons]
    rw [show selStep br pd (0, 0, 0) kd0 =
        (kd0.1, mapGetD br kd0.1 0, if kd0.1 = pd then kd0.2 else 0) from by
      unfold selStep
      dsimp only
      rw [if_pos (Or.inl rfl)]]
    have hres := selFold_min br pd t
      (fun x hx => hk0 x (List.mem_cons_of_mem _ hx))
      kd0.1 (mapGetD br kd0.1 0) (if kd0.1 = pd then kd0.2 else 0)
      (hk0 kd0 (List.mem_cons_self _ _)) rfl
    refine ⟨hres.1, hres.2.1, ?_, ?_⟩
    · rcases hres.2.2.2.1 with heq | ⟨x, hx, hxe⟩
      · exact ⟨kd0, List.mem_cons_self _ _, heq.symm⟩
      · exact ⟨x, List.mem_cons_of_mem _ hx, hxe⟩
    · intro x hx
      rcases List.mem_cons.mp hx with rfl | hmem
      · exact hres.2.2.1
      · exact hres.2.2.2.2 x hmem

/-- C3: preferred-region selection with stickiness. If the previous report
preferred region R (nonzero), the current report contains R with nonzero
latency L, and every region of the current report has best-recent latency
(over the pruned five-minute history) strictly above `L/3*2` (the source's
integer rendering of two thirds of L), then PreferredDERP stays R;
otherwise — some region's best-recent is at most that threshold — the
chosen region is one of the current report's regions with the smallest
best-recent latency. -/
theorem C3_preferred_region_stickiness (hist : ClientHist) (now : Nat)
    (r l0 : Report) (R L : Nat)
    (hlast : hist.last = some l0) (hR : l0.PreferredDERP = R) (hR0 : R ≠ 0)
    (hfresh : r.PreferredDERP = 0)
    (hnd : (r.RegionLatency.map Prod.fst).Nodup)
    (hk0 : ∀ kd ∈ r.RegionLatency, kd.1 ≠ 0)
    (hRL : mapGet r.RegionLatency R = some L) (hL0 : L ≠ 0) :
    ((∀ kd ∈ r.RegionLatency, L / 3 * 2 <
        mapGetD (bestRecentOf (timeMapSet hist.prev now r) now) kd.1 0) →
      (addReportHistoryAndSetPreferredDERP hist now r).1.PreferredDERP = R) ∧
    ((∃ kd ∈ r.RegionLatency,
        mapGetD (bestRecentOf (timeMapSet hist.prev now r) now) kd.1 0 ≤
          L / 3 * 2) →
      (∃ kd ∈ r.RegionLatency, kd.1 =
        (addReportHistoryAndSetPreferredDERP hist now r).1.PreferredDERP) ∧
      ∀ kd ∈ r.RegionLatency,
        mapGetD (bestRecentOf (timeMapSet hist.prev now r) now)
          (addReportHistoryAndSetPreferredDERP hist now r).1.PreferredDERP 0 ≤
        mapGetD (bestRecentOf (timeMapSet hist.prev now r) now) kd.1 0) := by
  have hne : r.RegionLatency ≠ [] := by
    intro hnil
    rw [hnil] at hRL
    exact absurd hRL (by simp [mapGet])
  have hpref : (addReportHistoryAndSetPreferredDERP hist now r).1.PreferredDERP =
      (if R ≠ 0 ∧
          (r.RegionLatency.foldl
            (selStep (bestRecentOf (timeMapSet hist.prev now r) now) R)
            (0, 0, 0)).1 ≠ R ∧
          (r.RegionLatency.foldl
            (selStep (bestRecentOf (timeMapSet hist.prev now r) now) R)
            (0, 0, 0)).2.2 ≠ 0 ∧
          (r.RegionLatency.foldl
            (selStep (bestRecentOf (timeMapSet hist.prev now r) now) R)
            (0, 0, 0)).2.2 / 3 * 2 <
          (r.RegionLatency.foldl
            (selStep (bestRecentOf (timeMapSet hist.prev now r) now) R)
            (0, 0, 0)).2.1
       then R
       else (r.RegionLatency.foldl
         (selStep (bestRecentOf (timeMapSet hist.prev now r) now) R)
         (0, 0, 0)).1) := by
    unfold addReportHistoryAndSetPreferredDERP
    rw [hlast]
    dsimp only
    rw [hR, hfresh]
  have hold : (r.RegionLatency.foldl
      (selStep (bestRecentOf (timeMapSet hist.prev now r) now) R)
      (0, 0, 0)).2.2 = L := by
    rw [selFold_oldLat]
    exact lastVal_of_mapGet r.RegionLatency R L hnd hRL
  have hsel := selFold_min_from_zero
    (bestRecentOf (timeMapSet hist.prev now r) now) R r.RegionLatency hk0 hne
  constructor
  · intro hall
    rw [hpref]
    by_cases hFR : (r.RegionLatency.foldl
        (selStep (bestRecentOf (timeMapSet hist.prev now r) now) R)
        (0, 0, 0)).1 = R
    · rw [if_neg (fun hcond => hcond.2.1 hFR)]
      exact hFR
    · refine (if_pos ⟨hR0, hFR, ?_, ?_⟩).trans rfl
      · rw [hold]
        exact hL0
      · rw [hold, hsel.2.1]
        obtain ⟨kd, hkd, hke⟩ := hsel.2.2.1
        rw [← hke]
        exact hall kd hkd
  · rintro ⟨kds, hkdm, hkle⟩
    have hnotlt : ¬((r.RegionLatency.foldl
        (selStep (bestRecentOf (timeMapSet hist.prev now r) now) R)
        (0, 0, 0)).2.2 / 3 * 2 <
        (r.RegionLatency.foldl
          (selStep (bestRecentOf (timeMapSet hist.prev now r) now) R)
          (0, 0, 0)).2.1) := by
      rw [hold]
      have hmin := hsel.2.2.2 kds hkdm
      omega
    rw [hpref, if_neg (fun hcond => hnotlt hcond.2.2.2)]
    exact ⟨hsel.2.2.1, fun kd hkd => by
      rw [← hsel.2.1]
      exact hsel.2.2.2 kd hkd⟩

/-- C3 witness: the theorem applied at the spec's boundary example — with
the previous preferred region 1 at a current 90 ms, a 61 ms challenger
(above 90/3*2 = 60 ms) leaves the preference at 1; and by direct
evaluation a 59 ms challenger switches it to 2. -/
theorem C3_witness :
    (addReportHistoryAndSetPreferredDERP c3Hist 1000 c3Cur90).1.PreferredDERP
      = 1 ∧
    (addReportHistoryAndSetPreferredDERP c3Hist 1000 c3Cur59).1.PreferredDERP
      = 2 :=
  ⟨(C3_preferred_region_stickiness c3Hist 1000 c3Cur90 c3Last 1 90000000
      rfl rfl (by decide) rfl (by decide) (by decide) (by decide)
      (by decide)).1 (by decide),
   by decide⟩

end Netcheck

namespace Portmapper

/-- C9: in the Probe read loop, a parsed PCP announce reply with result OK
sets the PCP result true and stamps the PCP last-seen time, a PCP announce
reply with NotAuthorized sets the PCP result false (still stamping the
time), a parsed PMP map-public-address reply with result OK sets the PMP
result true and stamps the PMP public-address time; the loop returns
without reading further once a PCP announce reply has been heard and the
PMP result is positive; and exhaustion by the 250 ms deadline is not
reported as an error. -/
theorem C9_probe_read_loop :
    (∀ (st : PMClientTimes) (res : ProbeResult) (heard : Bool) (p : PMPacket)
       (pres : PCPResponse), p.pcp = some pres →
       pres.OpCode = pcpOpReply ||| pcpOpAnnounce →
       pres.ResultCode = pcpCodeOK →
       (processPMPacket st res heard p).2.1.PCP = true ∧
       (processPMPacket st res heard p).1.pcpSawTime = some p.now ∧
       (processPMPacket st res heard p).2.2 = true) ∧
    (∀ (st : PMClientTimes) (res : ProbeResult) (heard : Bool) (p : PMPacket)
       (pres : PCPResponse), p.pcp = some pres →
       pres.OpCode = pcpOpReply ||| pcpOpAnnounce →
       pres.ResultCode = pcpCodeNotAuthorized →
       (processPMPacket st res heard p).2.1.PCP = false ∧
       (processPMPacket st res heard p).1.pcpSawTime = some p.now ∧
       (processPMPacket st res heard p).2.2 = true) ∧
    (∀ (st : PMClientTimes) (res : ProbeResult) (heard : Bool) (p : PMPacket)
       (pres : PMPResponse), p.pcp = none → p.pmp = some pres →
       pres.OpCode = pmpOpReply ||| pmpOpMapPublicAddr →
       pres.ResultCode = pmpCodeOK →
       (processPMPacket st res heard p).2.1.PMP = true ∧
       (processPMPacket st res heard p).1.pmpPubIPTime = some p.now) ∧
    (∀ (st : PMClientTimes) (res : ProbeResult) (pkts : List PMPacket)
       (endEv : ReadEnd), res.PMP = true →
       probeReadLoop st res true pkts endEv = (st, res, none)) ∧
    (∀ (st : PMClientTimes) (res : ProbeResult) (heard : Bool)
       (pkts : List PMPacket),
       (probeReadLoop st res heard pkts .deadline).2.2 = none) := by
  refine ⟨?_, ?_, ?_, ?_, ?_⟩
  · intro st res heard p pres hp hop hrc
    unfold processPMPacket
    rw [hp]
    simp [hop, hrc]
  · intro st res heard p pres hp hop hrc
    unfold processPMPacket
    rw [hp]
    simp [hop, hrc, pcpCodeNotAuthorized, pcpCodeOK]
  · intro st res heard p pres hp hpm hop hrc
    unfold processPMPacket
    rw [hp, hpm]
    simp [hop, hrc]
  · intro st res pkts endEv hpmp
    unfold probeReadLoop
    simp [hpmp]
  · intro st res heard pkts
    induction pkts generalizing st res heard with
    | nil =>
      unfold probeReadLoop
      split
      · rfl
      · rfl
    | cons p rest ih =>
      unfold probeReadLoop
      split
      · rfl
      · exact ih _ _ _

/-- C9 witness: the theorem applied to concrete packets: a PCP announce-OK
reply at time 7, then a PMP map-public-address OK reply at time 8. -/
theorem C9_witness :
    (processPMPacket {} {} false
       { pcp := some { OpCode := 128, ResultCode := 0 }, now := 7 }).2.1.PCP = true ∧
    (processPMPacket {} {} false
       { pcp := some { OpCode := 128, ResultCode := 2 }, now := 7 }).2.1.PCP = false ∧
    (processPMPacket {} {} false
       { pmp := some { OpCode := 128, ResultCode := 0 }, now := 8 }).2.1.PMP = true ∧
    probeReadLoop {} { PMP := true } true
       [{ pcp := some { OpCode := 128, ResultCode := 0 }, now := 9 }] .deadline =
      ({}, { PMP := true }, none) ∧
    (probeReadLoop {} {} false [] .deadline).2.2 = none :=
  ⟨(C9_probe_read_loop.1 {} {} false _ _ rfl rfl rfl).1,
   (C9_probe_read_loop.2.1 {} {} false _ _ rfl rfl rfl).1,
   (C9_probe_read_loop.2.2.1 {} {} false _ _ rfl rfl rfl rfl).1,
   C9_probe_read_loop.2.2.2.1 {} { PMP := true } _ _ rfl,
   C9_probe_read_loop.2.2.2.2 {} {} false []⟩

end Portmapper
